import Mathlib

/-!
Verification of the `reuteras/utils` Obsidian tag utilities against their
natural-language specification.

The Python sources (`tag_utils.py`, `obsidian_auto_tagger.py`,
`readwise_tag_sync.py`) are shallowly embedded below.  Python strings are
modelled as `List Char` (`Str`); character classes follow the ASCII fragment
of Python's regex classes (all strings appearing in the claims are ASCII).
YAML documents produced by the external `ruamel.yaml` reader are modelled by
the inductive type `Yaml`; the reader itself, the `rapidfuzz` scorer and the
HTTP fetch are external dependencies and enter as explicit parameters or as
small modelled fragments, each marked in its doc comment.
-/

/-- Python `str` modelled as a list of characters. -/
abbrev Str := List Char

/-- Python's `\s` (ASCII fragment): the whitespace class used by `re` and by
`str.strip()`. -/
def pyIsSpace (c : Char) : Bool :=
  c = ' ' || c = '\t' || c = '\n' || c = '\r' || c = '\x0b' || c = '\x0c'

/-- Python's `\w` (ASCII fragment): letters, digits and underscore. -/
def isWordChar (c : Char) : Bool :=
  c.isAlpha || c.isDigit || c = '_'

/-- The boundary class `[\w/]` used by the lookbehind/lookahead of
`_TAG_PATTERN` and of the pattern built in `replace_tag_in_text`. -/
def isWordSlash (c : Char) : Bool :=
  isWordChar c || c = '/'

/-- The tag-name character class of `_TAG_PATTERN`: letters, digits,
underscore, dot, slash, dash. -/
def isTagChar (c : Char) : Bool :=
  c.isAlpha || c.isDigit || c = '_' || c = '.' || c = '/' || c = '-'

/-- Does the preceding character (if any) fall in `[\w/]`?  Mirrors the
lookbehind `(?<![\w/])`: at the start of the text there is no preceding
character and the negative lookbehind succeeds. -/
def prevBlocks : Option Char → Bool
  | none => false
  | some c => isWordSlash c

/-- Does the text start with a `[\w/]` character?  Mirrors the lookahead
`(?![\w/])`: at the end of the text the negative lookahead succeeds. -/
def headBlocks : Str → Bool
  | [] => false
  | c :: _ => isWordSlash c

/-- One left-to-right pass of `re.sub` with the pattern
`(?<![\w/])#<old>(?![\w/])` (the pattern compiled by `replace_tag_in_text`;
`re.escape` makes `old` literal).  `prev` is the character preceding the
current position in the original text (`none` at the start).  After a match
the replacement `#<new>` is emitted and the scan resumes after the matched
text of the original; `skip` counts the remaining matched characters still
to be dropped, so that `prev` ends up at the last character of `#<old>`,
exactly as the regex engine's lookbehind would see it. -/
def subTagAux (old new : Str) : Option Char → Nat → Str → Str
  | _, _, [] => []
  | _, k + 1, c :: rest => subTagAux old new (some c) k rest
  | prev, 0, c :: rest =>
    if c = '#' && !prevBlocks prev && old.isPrefixOf rest
        && !headBlocks (rest.drop old.length) then
      '#' :: (new ++ subTagAux old new (some '#') old.length rest)
    else
      c :: subTagAux old new (some c) 0 rest

/-- `replace_tag_in_text(text, old, new)` from `tag_utils.py`:

    if old == new: return text
    pattern = re.compile(rf"(?<![\w/])#{re.escape(old)}(?![\w/])")
    return pattern.sub(f"#{new}", text)
-/
def replace_tag_in_text (text old new : Str) : Str :=
  if old = new then text else subTagAux old new none 0 text

/-- The scan never replaces anything when every occurrence of `#old` in the
text is followed by a character of the class `[\w/]` (the class the compiled
pattern's negative lookahead actually checks). -/
theorem subTagAux_no_match (old new : Str) :
    ∀ (text : Str),
      (∀ i < text.length, ('#' :: old).isPrefixOf (text.drop i) →
        headBlocks (text.drop (i + 1 + old.length)) = true) →
      ∀ prev, subTagAux old new prev 0 text = text := by
  intro text
  induction text with
  | nil => intro _ _; rfl
  | cons c rest ih =>
    intro H prev
    have hcond : (c = '#' && !prevBlocks prev && old.isPrefixOf rest
        && !headBlocks (rest.drop old.length)) = false := by
      by_cases hc : c = '#'
      · by_cases hp : old.isPrefixOf rest = true
        · have h0 : ('#' :: old).isPrefixOf ((c :: rest).drop 0) := by
            subst hc
            simpa [List.isPrefixOf] using hp
          have := H 0 (by simp) h0
          have hhb : headBlocks (rest.drop old.length) = true := by
            simpa [show 0 + 1 + old.length = old.length + 1 by omega,
              List.drop_succ_cons] using this
          simp [hhb]
        · simp at hp
          simp [hp]
      · simp [hc]
    have Hrest : ∀ i < rest.length, ('#' :: old).isPrefixOf (rest.drop i) →
        headBlocks (rest.drop (i + 1 + old.length)) = true := by
      intro i hi hpre
      have h1 : ('#' :: old).isPrefixOf ((c :: rest).drop (i + 1)) := by
        simpa [List.drop_succ_cons] using hpre
      have h2 := H (i + 1) (by simp; omega) h1
      simpa [List.drop_succ_cons, Nat.add_right_comm] using h2
    calc subTagAux old new prev 0 (c :: rest)
        = c :: subTagAux old new (some c) 0 rest := by
          simp [subTagAux, hcond]
      _ = c :: rest := by rw [ih Hrest (some c)]

/-- C1, counterexample.  The claim says `replace_tag_in_text` never matches
an occurrence where `old` is a strict prefix of a longer inline tag token,
for a token extending with ANY tag character (letters, digits, underscore,
dot, slash, dash).  In `"#foo.sub"` the inline tag token is `"foo.sub"`
(dot is a tag character), `"foo"` is a strict prefix of it, so the claim
requires the text to be left unchanged — but the compiled pattern's
lookahead only excludes word characters and slash, not dot or dash, so the
code rewrites the text to `"#bar.sub"`. -/
theorem replaceTag_strict_prefix_counterexample :
    replace_tag_in_text "#foo.sub".data "foo".data "bar".data = "#bar.sub".data
    ∧ "#bar.sub".data ≠ "#foo.sub".data
    ∧ isTagChar '.' = true := by
  decide

/-- C1, amended.  `replace_tag_in_text` replaces every inline occurrence of
`#old` with `#new` but never matches an occurrence where `old` is a strict
prefix of a longer inline tag token extending with a WORD character
(letter, digit, underscore) or `/`; extensions with the remaining tag
characters `.` and `-` are still matched.  In particular, replacing
`"foo"` with `"bar"` in `"#foo #foobar #foo/sub"` changes only the exact
token `#foo` (first conjunct), and whenever every occurrence of `#old` in
the text is followed by a word character or `/`, the text is returned
unchanged (second conjunct). -/
theorem replaceTag_bounded_word_slash :
    (replace_tag_in_text "#foo #foobar #foo/sub".data "foo".data "bar".data
      = "#bar #foobar #foo/sub".data)
    ∧ ∀ (text old new : Str),
      (∀ i < text.length, ('#' :: old).isPrefixOf (text.drop i) →
        headBlocks (text.drop (i + 1 + old.length)) = true) →
      replace_tag_in_text text old new = text := by
  refine ⟨by decide, ?_⟩
  intro text old new H
  unfold replace_tag_in_text
  by_cases h : old = new
  · simp [h]
  · simp only [h, if_false]
    exact subTagAux_no_match old new text H none

/-- Witness for C1's amended theorem: in `"see #foobar"` the sole
occurrence of `#foo` is followed by the word character `b`, and the
replacement leaves the text unchanged. -/
theorem replaceTag_bounded_word_slash_witness :
    replace_tag_in_text "see #foobar".data "foo".data "bar".data
      = "see #foobar".data :=
  replaceTag_bounded_word_slash.2 "see #foobar".data "foo".data "bar".data
    (by decide)

/-- YAML values as produced by the external `ruamel.yaml` round-trip loader:
null, booleans, integers, floats (as rationals), strings, sequences
(`CommentedSeq`) and mappings (`CommentedMap`, an ordered association
list). -/
inductive Yaml where
  | ynull
  | ybool (b : Bool)
  | yint (n : Int)
  | yfloat (q : Rat)
  | ystr (s : Str)
  | yseq (items : List Yaml)
  | ymap (entries : List (Yaml × Yaml))

/-- Python truthiness of a YAML value: `None`, `False`, zero, and empty
strings/collections are falsy. -/
def truthy : Yaml → Bool
  | .ynull => false
  | .ybool b => b
  | .yint n => decide (n ≠ 0)
  | .yfloat q => decide (q ≠ 0)
  | .ystr s => !s.isEmpty
  | .yseq l => !l.isEmpty
  | .ymap m => !m.isEmpty

/-- `isinstance(v, dict)` for loaded YAML values (`CommentedMap` is the only
dict among them). -/
def Yaml.isMapB : Yaml → Bool
  | .ymap _ => true
  | _ => false

/-- Is the value YAML null (loaded as Python `None`)? -/
def Yaml.isNullB : Yaml → Bool
  | .ynull => true
  | _ => false

/-- `isinstance(v, str)` for loaded YAML values. -/
def Yaml.isStrB : Yaml → Bool
  | .ystr _ => true
  | _ => false

/-- `isinstance(v, Sequence)` (and not `str`) for loaded YAML values:
only `CommentedSeq` qualifies. -/
def Yaml.isSeqB : Yaml → Bool
  | .yseq _ => true
  | _ => false

/-- Python `str(v)` for loaded YAML values.  The renderings of floats and
collections are never needed by the claims and are abstract tokens here;
strings, integers, booleans and null follow Python exactly. -/
def pyStr : Yaml → Str
  | .ystr s => s
  | .yint n => (toString n).data
  | .ybool b => if b then "True".data else "False".data
  | .ynull => "None".data
  | .yfloat _ => "<float>".data
  | .yseq _ => "<seq>".data
  | .ymap _ => "<map>".data

/-- `str.strip()` (ASCII whitespace). -/
def pyStrip (s : Str) : Str :=
  ((s.dropWhile pyIsSpace).reverse.dropWhile pyIsSpace).reverse

/-- `str.split(sep)` for a one-character separator: splits at every
occurrence, keeping empty segments (`",".split(",") == ["", ""]`). -/
def splitChar (sep : Char) : Str → List Str
  | [] => [[]]
  | c :: rest =>
    match splitChar sep rest with
    | [] => [[c]]
    | s :: ss => if c = sep then [] :: s :: ss else (c :: s) :: ss

/-- `[t.strip() for t in s.split(",") if t.strip()]`. -/
def splitCommaStrip (s : Str) : List Str :=
  ((splitChar ',' s).map pyStrip).filter (fun t => !t.isEmpty)

/-- `sep.join(parts)`. -/
def joinSep (sep : Str) : List Str → Str
  | [] => []
  | [t] => t
  | t :: ts => t ++ sep ++ joinSep sep ts

/-- The separator `", "` used by `set_frontmatter_tags`. -/
def commaSpace : Str := ',' :: ' ' :: []

/-- A frontmatter structure: the entries of a `CommentedMap` in order. -/
abbrev Fm := List (Yaml × Yaml)

/-- Is a YAML key the string `"tags"`? -/
def keyIsTags : Yaml → Bool
  | .ystr s => decide (s = "tags".data)
  | _ => false

/-- `frontmatter.get("tags")`: first value stored under the key `"tags"`. -/
def lookupTags : Fm → Option Yaml
  | [] => none
  | (k, v) :: rest => if keyIsTags k then some v else lookupTags rest

/-- `frontmatter["tags"] = v`: replace the value in place, or append the
key at the end if absent (Python dict assignment order semantics). -/
def setKeyTags : Fm → Yaml → Fm
  | [], v => [(.ystr "tags".data, v)]
  | (k, w) :: rest, v =>
    if keyIsTags k then (k, v) :: rest else (k, w) :: setKeyTags rest v

/-- `get_frontmatter_tags(frontmatter)` from `tag_utils.py`: absent or null
`tags` yields `[]`; a string is split on commas with whitespace stripped and
empty segments dropped; a sequence is stringified element-wise; any other
shape yields `[]`. -/
def get_frontmatter_tags (fm : Fm) : List Str :=
  match lookupTags fm with
  | none => []
  | some .ynull => []
  | some (.ystr s) => splitCommaStrip s
  | some (.yseq items) => items.map pyStr
  | some _ => []

/-- `set_frontmatter_tags(frontmatter, tags)` from `tag_utils.py`: if the
existing value is a string, write back a `", "`-joined string; otherwise
write a sequence of the tag strings. -/
def set_frontmatter_tags (fm : Fm) (tags : List Str) : Fm :=
  match lookupTags fm with
  | some (.ystr _) => setKeyTags fm (.ystr (joinSep commaSpace tags))
  | _ => setKeyTags fm (.yseq (tags.map .ystr))

/-- `ensure_frontmatter(frontmatter)`: `frontmatter or CommentedMap()` —
an empty (falsy) map is replaced by a fresh empty map, which is
extensionally the same entry list. -/
def ensure_frontmatter (fm : Fm) : Fm :=
  match fm with
  | [] => []
  | m => m

/-- Indices of `'\n'` in a string, ascending. -/
def nlIndicesAsc : Str → List Nat
  | [] => []
  | c :: rest =>
    let r := (nlIndicesAsc rest).map (· + 1)
    if c = '\n' then 0 :: r else r

/-- Scan for the closing delimiter: the first position where `"\n---"`
occurs, returning the text before it (the non-greedy group) and the text
after the `"---"`. -/
def findClose : Str → Option (Str × Str)
  | [] => none
  | c :: rest =>
    if ('\n' :: '-' :: '-' :: '-' :: []).isPrefixOf (c :: rest) then
      some ([], rest.drop 3)
    else
      match findClose rest with
      | none => none
      | some (g, after) => some (c :: g, after)

/-- Backtracking over the opening `\s*\n`: try each newline of the leading
whitespace run as the end of `\s*\n`, longest `\s*` first (greedy), and keep
the first choice for which a closing delimiter exists. -/
def fmMatchFrom (rest0 : Str) : List Nat → Option (Str × Str)
  | [] => none
  | p :: ps =>
    match findClose (rest0.drop (p + 1)) with
    | some (g, after) => some (g, after.dropWhile pyIsSpace)
    | none => fmMatchFrom rest0 ps

/-- `_FRONTMATTER_PATTERN.match(content)` for the pattern
`^---\s*\n(.*?)\n---\s*\n?` with DOTALL: the text must start with `---`
followed by a whitespace run containing a newline; the non-greedy group
runs to the first subsequent `"\n---"`; the trailing `\s*\n?` greedily
consumes whitespace after the closing delimiter.  Returns the group text
and the remaining body (text after the whole match), or `none`. -/
def fmMatch (content : Str) : Option (Str × Str) :=
  if ('-' :: '-' :: '-' :: []).isPrefixOf content then
    let rest0 := content.drop 3
    fmMatchFrom rest0 (nlIndicesAsc (rest0.takeWhile pyIsSpace)).reverse
  else none

/-- Is an `Except` a success? -/
def exceptOk {ε α : Type} : Except ε α → Bool
  | .ok _ => true
  | .error _ => false

/-- `dict(items)` over the elements of a loaded YAML sequence: each element
must be an iterable of length two (a two-element sequence, or a two-character
string); anything else raises. -/
def seqToPairs : List Yaml → Except String (List (Yaml × Yaml))
  | [] => .ok []
  | .yseq [a, b] :: rest => (seqToPairs rest).map (fun l => (a, b) :: l)
  | .ystr [c1, c2] :: rest =>
    (seqToPairs rest).map (fun l => (Yaml.ystr [c1], Yaml.ystr [c2]) :: l)
  | _ :: _ => .error "cannot convert sequence element to a key-value pair"

/-- `CommentedMap(data)` on a non-mapping `data`, i.e. Python `dict(data)`:
a mapping copies through; a sequence must consist of pair-like elements; an
empty string gives the empty dict; any nonempty string raises ValueError
(its elements have length one); null, booleans and numbers are not iterable
and raise TypeError.  Raises are modelled as `Except.error`. -/
def commentedMapOfData : Yaml → Except String Fm
  | .ymap m => .ok m
  | .yseq items => seqToPairs items
  | .ystr [] => .ok []
  | .ystr (_ :: _) => .error "ValueError: dictionary update sequence element has length 1"
  | _ => .error "TypeError: object is not iterable"

/-- `parse_frontmatter(content)` from `tag_utils.py`), with the external
YAML reader passed as `yload` (its parse errors propagate, as the source
catches nothing):

    match = _FRONTMATTER_PATTERN.match(content)
    if match:
        data = _yaml.load(match.group(1)) or CommentedMap()
        if not isinstance(data, CommentedMap): data = CommentedMap(data)
        return data, content[match.end():], True
    return CommentedMap(), content, False
-/
def parse_frontmatter (yload : Str → Except String Yaml) (content : Str) :
    Except String (Fm × Str × Bool) :=
  match fmMatch content with
  | none => .ok ([], content, false)
  | some (g, remaining) =>
    match yload g with
    | .error e => .error e
    | .ok v =>
      let data := if truthy v then v else .ymap []
      match data with
      | .ymap m => .ok (m, remaining, true)
      | other => (commentedMapOfData other).map (fun m => (m, remaining, true))

/-- Models the external `ruamel.yaml` reader on the tiny fragment exercised
by the concrete inputs here: a blank document loads as null (Python `None`),
and a single-line document without a colon loads as a plain string scalar
(surrounding whitespace stripped).  Everything else is left unmodelled. -/
def miniYamlLoad (s : Str) : Except String Yaml :=
  if (pyStrip s).isEmpty then .ok .ynull
  else if s.all (fun c => c ≠ '\n') && s.all (fun c => c ≠ ':') then
    .ok (.ystr (pyStrip s))
  else .error "unmodelled YAML document"

/-- `load_config(config_path)` from `tag_utils.py`, after path resolution
and file reading: the argument is the external YAML reader's result for the
whole configuration file (`ynull` for an empty file).

    data = _yaml.load(fh) or {}
    if not isinstance(data, dict):
        raise ValueError(f"Configuration at ... must be a mapping")
    return data
-/
def load_config (parsed : Yaml) : Except String Yaml :=
  let data := if truthy parsed then parsed else .ymap []
  if data.isMapB then .ok data
  else .error "Configuration must be a mapping"

/-- C2, counterexample.  The claim says `parse_frontmatter` terminates
normally for EVERY input, a non-mapping frontmatter YAML degrading to an
empty tag list.  But for the content `"---\nhello\n---\n"` the frontmatter
block loads as the string scalar `"hello"` (modelled by `miniYamlLoad`),
which is truthy and not a `CommentedMap`, so the code evaluates
`CommentedMap("hello")` — `dict` of a string whose elements have length
one — which raises ValueError instead of degrading. -/
theorem parse_frontmatter_scalar_counterexample :
    exceptOk (parse_frontmatter miniYamlLoad
      ('-' :: '-' :: '-' :: '\n' :: 'h' :: 'e' :: 'l' :: 'l' :: 'o' :: '\n'
        :: '-' :: '-' :: '-' :: '\n' :: [])) = false := by
  decide

/-- C2, amended.  `parse_frontmatter` terminates normally whenever the
frontmatter block (if one is found) loads as a mapping or as a falsy YAML
value (null, empty); it can raise when the block loads as a truthy
non-mapping value or when the YAML itself is malformed.  The tag accessor
part of the claim holds unconditionally: a `tags` value of any shape other
than a string or a sequence yields the empty tag list. -/
theorem parse_frontmatter_total_on_mappings :
    (∀ (yload : Str → Except String Yaml) (content : Str),
      (∀ g r, fmMatch content = some (g, r) →
        ∃ v, yload g = .ok v ∧ (v.isMapB = true ∨ truthy v = false)) →
      exceptOk (parse_frontmatter yload content) = true)
    ∧ ∀ (v : Yaml), v.isStrB = false → v.isSeqB = false →
      get_frontmatter_tags [(.ystr ('t' :: 'a' :: 'g' :: 's' :: []), v)] = [] := by
  constructor
  · intro yload content H
    unfold parse_frontmatter
    cases hm : fmMatch content with
    | none => rfl
    | some pr =>
      obtain ⟨g, r⟩ := pr
      obtain ⟨v, hv, hcase⟩ := H g r hm
      dsimp only
      rw [hv]
      rcases hcase with hmap | hfal
      · obtain ⟨m, rfl⟩ : ∃ m, v = .ymap m := by
          cases v <;> simp_all [Yaml.isMapB]
        by_cases ht : truthy (.ymap m)
        · simp [ht, exceptOk]
        · simp [ht, exceptOk]
      · simp [hfal, exceptOk]
  · intro v h1 h2
    cases v <;>
      simp_all [get_frontmatter_tags, lookupTags, keyIsTags, Yaml.isStrB,
        Yaml.isSeqB]

/-- Witness for C2's amended theorem: a note whose frontmatter block is
blank (loads as null, falsy) parses without error. -/
theorem parse_frontmatter_total_witness :
    exceptOk (parse_frontmatter miniYamlLoad
      ('-' :: '-' :: '-' :: '\n' :: '\n' :: '-' :: '-' :: '-' :: '\n'
        :: 'b' :: 'o' :: 'd' :: 'y' :: [])) = true :=
  parse_frontmatter_total_on_mappings.1 miniYamlLoad
    ('-' :: '-' :: '-' :: '\n' :: '\n' :: '-' :: '-' :: '-' :: '\n'
      :: 'b' :: 'o' :: 'd' :: 'y' :: [])
    (by
      intro g r h
      rw [show fmMatch ('-' :: '-' :: '-' :: '\n' :: '\n' :: '-' :: '-'
          :: '-' :: '\n' :: 'b' :: 'o' :: 'd' :: 'y' :: [])
          = some ([], 'b' :: 'o' :: 'd' :: 'y' :: []) from by decide] at h
      obtain ⟨h1, h2⟩ := Prod.mk.injEq .. ▸ Option.some.inj h
      subst h1; subst h2
      exact ⟨.ynull, rfl, Or.inr rfl⟩)

/-- C4, counterexample.  The claim says any non-mapping top-level value,
e.g. a list, is an InvalidConfiguration error, the empty file being the
single exception.  But `data = _yaml.load(fh) or {}` replaces EVERY falsy
parsed value with the empty mapping: a configuration file containing the
empty list `[]` (not an empty file, not null, not a mapping) loads
successfully. -/
theorem load_config_falsy_list_counterexample :
    exceptOk (load_config (.yseq [])) = true
    ∧ (Yaml.yseq []).isMapB = false
    ∧ (Yaml.yseq []).isNullB = false := by
  decide

/-- C4, amended.  `load_config` succeeds exactly when the parsed top-level
value is a mapping or falsy (Python truthiness): an empty file parses as
null and is substituted by the empty mapping, but so are the empty list,
the empty string, zero and `false`; every truthy non-mapping value is an
error. -/
theorem load_config_ok_iff_map_or_falsy (parsed : Yaml) :
    exceptOk (load_config parsed) = (parsed.isMapB || !truthy parsed) := by
  cases parsed with
  | ynull => rfl
  | ybool b => cases b <;> rfl
  | yint n =>
    by_cases h : n = 0 <;> simp [load_config, truthy, exceptOk, Yaml.isMapB, h]
  | yfloat q =>
    by_cases h : q = 0 <;> simp [load_config, truthy, exceptOk, Yaml.isMapB, h]
  | ystr s => cases s <;> rfl
  | yseq l => cases l <;> rfl
  | ymap m => cases m <;> rfl

/-- Is a YAML key the given string? (`CommentedMap` lookup by `str` key.) -/
def keyIs (key : Str) : Yaml → Bool
  | .ystr s => decide (s = key)
  | _ => false

/-- `config.get(key)`: first value stored under a string key. -/
def fmGet : Fm → Str → Option Yaml
  | [], _ => none
  | (k, v) :: rest, key => if keyIs key k then some v else fmGet rest key

/-- Truncation toward zero, as Python `int(float)`. -/
def ratTrunc (q : Rat) : Int :=
  if 0 ≤ q then ⌊q⌋ else ⌈q⌉

/-- Rest of a digit run: digits, with single underscores allowed between
digits (CPython integer-literal grammar). -/
def digitsTail : Str → Bool
  | [] => true
  | '_' :: rest =>
    match rest with
    | [] => false
    | d :: r => d.isDigit && digitsTail r
  | c :: rest => c.isDigit && digitsTail rest

/-- A nonempty digit run: a digit followed by digits with single
underscores between them. -/
def isDigitRun : Str → Bool
  | [] => false
  | c :: rest => c.isDigit && digitsTail rest

/-- Decimal value of a digit run, ignoring underscores. -/
def natOfDigits (s : Str) : Nat :=
  s.foldl (fun a c => if c = '_' then a else a * 10 + (c.toNat - '0'.toNat)) 0

/-- Python `int(s)` for a string: surrounding whitespace stripped, optional
sign, then a digit run; anything else raises ValueError (`none`). -/
def parseIntLiteral (s : Str) : Option Int :=
  let t := pyStrip s
  match t with
  | '+' :: r => if isDigitRun r then some (natOfDigits r : Int) else none
  | '-' :: r => if isDigitRun r then some (-(natOfDigits r : Int)) else none
  | _ => if isDigitRun t then some (natOfDigits t : Int) else none

/-- Python `int(v)` on a loaded YAML value: integers pass through, booleans
coerce to 0/1, floats truncate toward zero, strings parse per
`parseIntLiteral`; null, sequences and mappings raise TypeError (`none`). -/
def pyInt : Yaml → Option Int
  | .yint n => some n
  | .ybool b => some (if b then 1 else 0)
  | .yfloat q => some (ratTrunc q)
  | .ystr s => parseIntLiteral s
  | _ => none

/-- The configuration key `"similarity_threshold"`. -/
def simThresholdKey : Str :=
  's' :: 'i' :: 'm' :: 'i' :: 'l' :: 'a' :: 'r' :: 'i' :: 't' :: 'y' :: '_'
    :: 't' :: 'h' :: 'r' :: 'e' :: 's' :: 'h' :: 'o' :: 'l' :: 'd' :: []

/-- `similarity_threshold(config)` from `tag_utils.py`:

    try:
        value = int(config.get("similarity_threshold", 80))
    except (TypeError, ValueError):
        value = 80
    return max(0, min(100, value))
-/
def similarity_threshold (config : Fm) : Int :=
  let raw := (fmGet config simThresholdKey).getD (.yint 80)
  let value := (pyInt raw).getD 80
  max 0 (min 100 value)

/-- Substring occurrence (used below to spell out `collect_tags` for
concrete rule sets whose patterns are plain literals). -/
def occursIn (pat : Str) : Str → Bool
  | [] => pat.isEmpty
  | c :: rest => pat.isPrefixOf (c :: rest) || occursIn pat rest

/-- Python string comparison: lexicographic by code point. -/
def strLeB : Str → Str → Bool
  | [], _ => true
  | _ :: _, [] => false
  | c :: cs, d :: ds =>
    if c.val < d.val then true
    else if d.val < c.val then false
    else strLeB cs ds

/-- Deduplication keeping first occurrences (`set` membership filtering in
iteration order). -/
def dedupFirstAux (seen : List Str) : List Str → List Str
  | [] => []
  | t :: ts =>
    if t ∈ seen then dedupFirstAux seen ts
    else t :: dedupFirstAux (t :: seen) ts

/-- Python `sorted(set(l))` for strings. -/
def sortDedup (l : List Str) : List Str :=
  (dedupFirstAux [] l).insertionSort (fun a b => strLeB a b = true)

/-- `apply_new_tags(existing, additions)` from `obsidian_auto_tagger.py`:

    ordered = list(existing)
    for tag in additions:
        if tag not in ordered: ordered.append(tag)
    return ordered
-/
def apply_new_tags (existing additions : List Str) : List Str :=
  additions.foldl
    (fun ordered t => if t ∈ ordered then ordered else ordered ++ [t]) existing

/-- A markdown note in parsed form, as the tools see it after
`parse_frontmatter`: path, frontmatter entries, body text. -/
structure Note where
  path : Str
  fm : Fm
  body : Str

/-- For a fixed `auto_tags` rule set, the whole per-body tag derivation of
the auto-tagger — `collect_tags(body, rules)` with its per-match
`render_tag` calls and the `if tag:` guard — is a deterministic pure
function of the body text alone: regular-expression matching (including
position-sensitive patterns such as `^X`) and template rendering take no
other input.  The per-note pass is therefore modelled over an arbitrary
such function `collect`, so statements below quantify over every rule set
realizable in the configuration.  `collect` returns the collected set as a
list (in any order, possibly with duplicates); `sortDedup` at the use
sites is the caller's `sorted(set(...))`. -/
def noteNewTags (collect : Str → List Str) (n : Note) : List Str :=
  (sortDedup (collect n.body)).filter
    (fun t => decide (t ∉ get_frontmatter_tags (ensure_frontmatter n.fm)))

/-- One apply-mode iteration of the auto-tagger's `main` loop over a single
note, returning the note as re-read from disk afterwards: unchanged when
no new tags were computed (the file is skipped), otherwise with the merged
tag list written into the frontmatter.  The re-read body is
`n.body.dropWhile pyIsSpace`: `write_markdown` composes
`---\n<dumped fm>\n---\n` plus a `\n` separator when the body does not
already start with one, and the next `parse_frontmatter`'s trailing `\s*`
consumes every leading whitespace character of the body region — so a
previously frontmatter-less note loses the leading whitespace of its body,
while a note whose body came from a frontmatter match (such a body starts
with a non-whitespace character or is empty) keeps it unchanged.  The
external `ruamel.yaml` dump/load round trip of the frontmatter entries is
modelled as faithful, and the dumped block is assumed to re-match as one
block (string values with embedded newlines are dumped escaped, so the
dump contains no spurious `---` line). -/
def passFile (collect : Str → List Str) (n : Note) : Note :=
  let fm := ensure_frontmatter n.fm
  let newTags := noteNewTags collect n
  if newTags.isEmpty then n
  else
    ⟨n.path,
      set_frontmatter_tags fm
        (apply_new_tags (get_frontmatter_tags fm) newTags),
      n.body.dropWhile pyIsSpace⟩

/-- `splitChar` always produces at least one piece. -/
theorem splitChar_ne_nil (sep : Char) (s : Str) : splitChar sep s ≠ [] := by
  cases s with
  | nil => simp [splitChar]
  | cons c rest =>
    simp only [splitChar]
    cases h : splitChar sep rest with
    | nil => simp
    | cons u us => by_cases hc : c = sep <;> simp [hc]

/-- Every piece produced by `splitChar` is free of the separator. -/
theorem mem_splitChar_no_sep (sep : Char) :
    ∀ (s : Str), ∀ piece ∈ splitChar sep s, ∀ c ∈ piece, c ≠ sep := by
  intro s
  induction s with
  | nil =>
    intro piece hp c hc
    simp only [splitChar, List.mem_singleton] at hp
    subst hp
    simp at hc
  | cons a rest ih =>
    intro piece hp c hc
    rcases hsp : splitChar sep rest with _ | ⟨u, us⟩
    · exact absurd hsp (splitChar_ne_nil sep rest)
    · rw [splitChar, hsp] at hp
      dsimp only at hp
      by_cases ha : a = sep
      · rw [if_pos ha] at hp
        rcases List.mem_cons.mp hp with rfl | hp2
        · simp at hc
        · exact ih piece (hsp ▸ hp2) c hc
      · rw [if_neg ha] at hp
        rcases List.mem_cons.mp hp with rfl | hp2
        · rcases List.mem_cons.mp hc with rfl | hc2
          · exact ha
          · exact ih u (hsp ▸ List.mem_cons_self u us) c hc2
        · exact ih piece (hsp ▸ List.mem_cons_of_mem u hp2) c hc

/-- Splitting after prepending separator-free text extends the first
piece. -/
theorem splitChar_append_no_sep (sep : Char) :
    ∀ (t : Str), (∀ c ∈ t, c ≠ sep) →
      ∀ (s : Str) (u : Str) (us : List Str), splitChar sep s = u :: us →
        splitChar sep (t ++ s) = (t ++ u) :: us := by
  intro t
  induction t with
  | nil => intro _ s u us h; simpa using h
  | cons a t ih =>
    intro ht s u us h
    have ha : a ≠ sep := ht a (List.mem_cons_self a t)
    have ih' := ih (fun c hc => ht c (List.mem_cons_of_mem a hc)) s u us h
    simp only [List.cons_append, splitChar, List.append_eq]
    rw [ih']
    simp [ha]

/-- Splitting at a leading separator produces a leading empty piece. -/
theorem splitChar_cons_sep (sep : Char) (s : Str) :
    splitChar sep (sep :: s) = [] :: splitChar sep s := by
  rcases h : splitChar sep s with _ | ⟨u, us⟩
  · exact absurd h (splitChar_ne_nil sep s)
  · simp [splitChar, h]

/-- `pyStrip` via Mathlib's `rdropWhile`. -/
theorem pyStrip_eq_rdrop (s : Str) :
    pyStrip s = (s.dropWhile pyIsSpace).rdropWhile pyIsSpace := rfl

/-- The head of a `dropWhile` result fails the predicate. -/
theorem dropWhile_head_false {α : Type} {p : α → Bool} :
    ∀ {l : List α} {c : α} {u : List α},
      l.dropWhile p = c :: u → p c = false := by
  intro l
  induction l with
  | nil => intro c u h; simp [List.dropWhile] at h
  | cons a rest ih =>
    intro c u h
    rw [List.dropWhile_cons] at h
    by_cases ha : p a
    · rw [if_pos ha] at h
      exact ih h
    · rw [if_neg ha] at h
      obtain ⟨rfl, -⟩ := List.cons.injEq .. ▸ h
      simpa using ha

/-- A stripped string has no leading whitespace left. -/
theorem dropWhile_pyStrip (s : Str) :
    (pyStrip s).dropWhile pyIsSpace = pyStrip s := by
  rw [pyStrip_eq_rdrop]
  rcases hp : (s.dropWhile pyIsSpace).rdropWhile pyIsSpace with _ | ⟨c, u⟩
  · rfl
  · have hpre := List.rdropWhile_prefix pyIsSpace (s.dropWhile pyIsSpace)
    rw [hp] at hpre
    obtain ⟨tail, htail⟩ := hpre
    have hA : s.dropWhile pyIsSpace = c :: (u ++ tail) := by
      rw [← htail]; simp
    have hc : pyIsSpace c = false := dropWhile_head_false hA
    simp [List.dropWhile_cons, hc]

/-- `str.strip()` is idempotent. -/
theorem pyStrip_idem (s : Str) : pyStrip (pyStrip s) = pyStrip s := by
  calc pyStrip (pyStrip s)
      = ((pyStrip s).dropWhile pyIsSpace).rdropWhile pyIsSpace := rfl
    _ = (pyStrip s).rdropWhile pyIsSpace := by rw [dropWhile_pyStrip]
    _ = ((s.dropWhile pyIsSpace).rdropWhile pyIsSpace).rdropWhile pyIsSpace := rfl
    _ = (s.dropWhile pyIsSpace).rdropWhile pyIsSpace :=
        List.rdropWhile_idempotent pyIsSpace _
    _ = pyStrip s := rfl

/-- Stripping ignores a prepended space. -/
theorem pyStrip_cons_space (t : Str) : pyStrip (' ' :: t) = pyStrip t := by
  have hsp : pyIsSpace ' ' = true := rfl
  simp [pyStrip_eq_rdrop, List.dropWhile_cons, hsp]

/-- Stripping only removes characters. -/
theorem mem_pyStrip_subset {s : Str} : ∀ c ∈ pyStrip s, c ∈ s := by
  intro c hc
  rw [pyStrip_eq_rdrop] at hc
  exact (List.dropWhile_suffix pyIsSpace).subset
    ((List.rdropWhile_prefix pyIsSpace (s.dropWhile pyIsSpace)).subset hc)

/-- A tag that survives the comma-string serialization of
`set_frontmatter_tags` followed by `get_frontmatter_tags`: nonempty,
comma-free, and already stripped. -/
def CleanTag (t : Str) : Prop :=
  t ≠ [] ∧ (∀ c ∈ t, c ≠ ',') ∧ pyStrip t = t

instance : DecidablePred CleanTag := by
  intro t
  unfold CleanTag
  infer_instance

/-- Reading back the `", "`-joined serialization of clean tags recovers
them exactly. -/
theorem splitCommaStrip_joinSep :
    ∀ (l : List Str), (∀ t ∈ l, CleanTag t) →
      splitCommaStrip (joinSep commaSpace l) = l := by
  intro l
  induction l with
  | nil => intro _; rfl
  | cons t ts ih =>
    intro hl
    have hct := hl t (List.mem_cons_self t ts)
    cases ts with
    | nil =>
      have hsp : splitChar ',' (t ++ []) = (t ++ []) :: [] :=
        splitChar_append_no_sep ',' t hct.2.1 [] [] [] rfl
      rw [List.append_nil] at hsp
      show splitCommaStrip t = [t]
      unfold splitCommaStrip
      rw [hsp]
      simp [hct.2.2, hct.1]
    | cons t2 ts2 =>
      have ih' := ih (fun x hx => hl x (List.mem_cons_of_mem t hx))
      rcases hsr : splitChar ',' (joinSep commaSpace (t2 :: ts2)) with _ | ⟨u, us⟩
      · exact absurd hsr (splitChar_ne_nil ',' _)
      · have hs2 : splitChar ','
            (' ' :: joinSep commaSpace (t2 :: ts2)) = (' ' :: u) :: us := by
          rw [splitChar, hsr]
          simp
        have hs3 : splitChar ','
            (',' :: ' ' :: joinSep commaSpace (t2 :: ts2))
            = [] :: (' ' :: u) :: us := by
          rw [splitChar_cons_sep, hs2]
        have hs4 : splitChar ','
            (t ++ (',' :: ' ' :: joinSep commaSpace (t2 :: ts2)))
            = (t ++ []) :: (' ' :: u) :: us :=
          splitChar_append_no_sep ',' t hct.2.1 _ _ _ hs3
        rw [List.append_nil] at hs4
        have hj : joinSep commaSpace (t :: t2 :: ts2)
            = t ++ (',' :: ' ' :: joinSep commaSpace (t2 :: ts2)) := by
          show t ++ commaSpace ++ joinSep commaSpace (t2 :: ts2) = _
          simp [commaSpace]
        unfold splitCommaStrip
        rw [hj, hs4]
        have hrest : ((((' ' :: u) :: us).map pyStrip).filter
            (fun x => !x.isEmpty)) = t2 :: ts2 := by
          have : (((u :: us).map pyStrip).filter (fun x => !x.isEmpty))
              = t2 :: ts2 := by
            have h5 := ih'
            unfold splitCommaStrip at h5
            rw [hsr] at h5
            exact h5
          simpa [pyStrip_cons_space] using this
        have hne : (!List.isEmpty t) = true := by
          simp [List.isEmpty_iff, hct.1]
        rw [List.map_cons, List.filter_cons, hct.2.2, if_pos hne, hrest]

/-- Every element produced by `splitCommaStrip` is clean. -/
theorem mem_splitCommaStrip_clean (s : Str) :
    ∀ x ∈ splitCommaStrip s, CleanTag x := by
  intro x hx
  unfold splitCommaStrip at hx
  rw [List.mem_filter] at hx
  obtain ⟨hmem, hne⟩ := hx
  rw [List.mem_map] at hmem
  obtain ⟨piece, hpiece, rfl⟩ := hmem
  refine ⟨by simpa [List.isEmpty_iff] using hne, ?_, pyStrip_idem piece⟩
  intro c hcmem
  exact mem_splitChar_no_sep ',' s piece hpiece c (mem_pyStrip_subset c hcmem)

/-- Membership in the first-occurrence deduplication. -/
theorem mem_dedupFirstAux (x : Str) :
    ∀ (l seen : List Str), x ∈ dedupFirstAux seen l ↔ x ∈ l ∧ x ∉ seen := by
  intro l
  induction l with
  | nil => intro seen; simp [dedupFirstAux]
  | cons t ts ih =>
    intro seen
    by_cases ht : t ∈ seen
    · rw [dedupFirstAux, if_pos ht, ih seen]
      constructor
      · rintro ⟨h1, h2⟩
        exact ⟨List.mem_cons_of_mem t h1, h2⟩
      · rintro ⟨h1, h2⟩
        rcases List.mem_cons.mp h1 with rfl | h3
        · exact absurd ht h2
        · exact ⟨h3, h2⟩
    · rw [dedupFirstAux, if_neg ht]
      constructor
      · intro hmem
        rcases List.mem_cons.mp hmem with rfl | h3
        · exact ⟨List.mem_cons_self x ts, ht⟩
        · obtain ⟨h4, h5⟩ := (ih (t :: seen)).mp h3
          exact ⟨List.mem_cons_of_mem t h4,
            fun hx => h5 (List.mem_cons_of_mem t hx)⟩
      · rintro ⟨h1, h2⟩
        rcases List.mem_cons.mp h1 with rfl | h3
        · exact List.mem_cons_self x _
        · by_cases hxt : x = t
          · subst hxt; exact List.mem_cons_self x _
          · refine List.mem_cons_of_mem t ((ih (t :: seen)).mpr ⟨h3, ?_⟩)
            intro hx
            rcases List.mem_cons.mp hx with h5 | h5
            · exact hxt h5
            · exact h2 h5

/-- First-occurrence deduplication has no duplicates. -/
theorem nodup_dedupFirstAux :
    ∀ (l seen : List Str), (dedupFirstAux seen l).Nodup := by
  intro l
  induction l with
  | nil => intro seen; simp [dedupFirstAux]
  | cons t ts ih =>
    intro seen
    by_cases ht : t ∈ seen
    · rw [dedupFirstAux, if_pos ht]
      exact ih seen
    · rw [dedupFirstAux, if_neg ht, List.nodup_cons]
      refine ⟨fun hmem => ?_, ih (t :: seen)⟩
      exact ((mem_dedupFirstAux t ts (t :: seen)).mp hmem).2
        (List.mem_cons_self t seen)

/-- `sorted(set(l))` has the same members as `l`. -/
theorem mem_sortDedup (x : Str) (l : List Str) : x ∈ sortDedup l ↔ x ∈ l := by
  unfold sortDedup
  rw [(List.perm_insertionSort _ _).mem_iff, mem_dedupFirstAux]
  simp

/-- `sorted(set(l))` has no duplicates. -/
theorem nodup_sortDedup (l : List Str) : (sortDedup l).Nodup := by
  unfold sortDedup
  exact ((List.perm_insertionSort _ _).nodup_iff).mpr (nodup_dedupFirstAux l [])

/-- When the additions are duplicate-free and disjoint from the existing
tags, `apply_new_tags` is plain concatenation. -/
theorem apply_new_tags_append :
    ∀ (additions existing : List Str), additions.Nodup →
      (∀ t ∈ additions, t ∉ existing) →
      apply_new_tags existing additions = existing ++ additions := by
  intro additions
  induction additions with
  | nil => intro existing _ _; simp [apply_new_tags]
  | cons t ts ih =>
    intro existing hnd hdis
    have hstep : apply_new_tags existing (t :: ts)
        = apply_new_tags (existing ++ [t]) ts := by
      unfold apply_new_tags
      rw [List.foldl_cons, if_neg (hdis t (List.mem_cons_self t ts))]
    rw [hstep, ih (existing ++ [t]) (List.nodup_cons.mp hnd).2 ?_]
    · simp
    · intro u hu hmem
      rcases List.mem_append.mp hmem with h1 | h1
      · exact hdis u (List.mem_cons_of_mem t hu) h1
      · rw [List.mem_singleton] at h1
        subst h1
        exact (List.nodup_cons.mp hnd).1 hu

/-- Looking up `"tags"` after `setKeyTags` yields the stored value. -/
theorem lookupTags_setKeyTags (v : Yaml) :
    ∀ (fm : Fm), lookupTags (setKeyTags fm v) = some v := by
  intro fm
  induction fm with
  | nil => simp [setKeyTags, lookupTags, keyIsTags]
  | cons kv rest ih =>
    obtain ⟨k, w⟩ := kv
    by_cases hk : keyIsTags k
    · simp [setKeyTags, hk, lookupTags]
    · simp [setKeyTags, hk, lookupTags, ih]

/-- `ensure_frontmatter` is extensionally the identity. -/
theorem ensure_frontmatter_eq (fm : Fm) : ensure_frontmatter fm = fm := by
  cases fm <;> rfl

/-- Writing tags and reading them back recovers them, provided they are
clean whenever the previous value was a comma-separated string. -/
theorem get_set_frontmatter_tags (fm : Fm) (tags : List Str)
    (hclean : ∀ w, lookupTags fm = some (.ystr w) → ∀ t ∈ tags, CleanTag t) :
    get_frontmatter_tags (set_frontmatter_tags fm tags) = tags := by
  have hseq : get_frontmatter_tags (setKeyTags fm (.yseq (tags.map .ystr)))
      = tags := by
    unfold get_frontmatter_tags
    rw [lookupTags_setKeyTags]
    simp [pyStr, List.map_map]
    exact List.map_id tags
  unfold set_frontmatter_tags
  cases hv : lookupTags fm with
  | none => exact hseq
  | some w =>
    cases w with
    | ystr s =>
      unfold get_frontmatter_tags
      rw [lookupTags_setKeyTags]
      exact splitCommaStrip_joinSep tags (hclean s hv)
    | ynull => exact hseq
    | ybool b => exact hseq
    | yint n => exact hseq
    | yfloat q => exact hseq
    | yseq items => exact hseq
    | ymap entries => exact hseq

/-- `collect_tags(body, rules)` for the rule set
`[{pattern: "X", tag_format: "b,c"}]`: the literal pattern `X` matches
somewhere in the body iff `X` occurs in it, and the placeholder-free
template renders to itself. -/
def collectComma (b : Str) : List Str :=
  if occursIn ('X' :: []) b then [('b' :: ',' :: 'c' :: [])] else []

/-- `collect_tags(body, rules)` for the rule set
`[{pattern: "X", tag_format: "a"}, {pattern: "^X", tag_format: "b"}]`:
the literal pattern `X` matches iff `X` occurs in the body, and the
anchored pattern `^X` matches iff the body starts with `X`. -/
def collectAnchored (b : Str) : List Str :=
  (if occursIn ('X' :: []) b then [('a' :: [])] else [])
    ++ (if ('X' :: []).isPrefixOf b then [('b' :: [])] else [])

/-- C3, counterexample.  The claim asserts an empty second-pass new-tags
set for EVERY vault and rule set; two realizable rule sets refute it.
First conjunct pair: with `tags` stored as the comma string `"a"` and the
rule `pattern: "X"` / `tag_format: "b,c"`, pass one writes the string
`"a, b,c"`, which pass two reads back as `["a", "b", "c"]`, so `"b,c"` is
a new tag again.  Second conjunct group: with the rules `pattern: "X"` /
`tag_format: "a"` and `pattern: "^X"` / `tag_format: "b"` on a
frontmatter-less note whose body is `"\nX"`, pass one adds only `"a"`;
re-parsing the rewritten file strips the body's leading newline, so the
anchored pattern now matches and pass two computes the new tag `"b"` —
even though every rendered tag is clean, so no cleanliness proviso alone
can rescue the claim. -/
theorem auto_tagger_second_pass_counterexample :
    (noteNewTags collectComma
        (passFile collectComma
          ⟨('n' :: []),
            [(.ystr ('t' :: 'a' :: 'g' :: 's' :: []), .ystr ('a' :: []))],
            ('X' :: [])⟩)
      = [('b' :: ',' :: 'c' :: [])]
    ∧ [('b' :: ',' :: 'c' :: [])] ≠ ([] : List Str))
    ∧ (noteNewTags collectAnchored
        (passFile collectAnchored ⟨('n' :: []), [], ('\n' :: 'X' :: [])⟩)
      = [('b' :: [])]
    ∧ [('b' :: [])] ≠ ([] : List Str)
    ∧ (∀ t ∈ collectAnchored ('\n' :: 'X' :: []), CleanTag t)
    ∧ ∀ t ∈ collectAnchored ('X' :: []), CleanTag t) := by
  refine ⟨⟨rfl, by simp⟩, rfl, by simp, by decide, by decide⟩

/-- A pass that computes no new tags skips the file and leaves the note
unchanged. -/
theorem passFile_of_no_new (collect : Str → List Str) (m : Note)
    (h : noteNewTags collect m = []) : passFile collect m = m := by
  unfold passFile
  simp [h]

/-- C3, amended.  The auto-tagger's per-note apply-mode pass is idempotent
provided (a) every rendered tag is clean (nonempty, comma-free, stripped)
and (b) the rule set's tag derivation is unaffected by stripping the
body's leading whitespace, which the rewrite performs — condition (b) is
automatic when the note already had a frontmatter block, since such a
parsed body starts with a non-whitespace character, and for every rule set
without position-sensitive patterns.  Under these provisos the second pass
computes an empty new-tags list for every note and leaves the note
unchanged.  Each proviso is forced by one half of the counterexample: a
comma-bearing tag breaks (a), an anchored pattern on a frontmatter-less
note breaks (b). -/
theorem auto_tagger_second_pass_empty (collect : Str → List Str) (n : Note)
    (hclean : ∀ t ∈ collect n.body, CleanTag t)
    (hstable : collect (n.body.dropWhile pyIsSpace) = collect n.body) :
    noteNewTags collect (passFile collect n) = []
    ∧ passFile collect (passFile collect n) = passFile collect n := by
  by_cases h : (noteNewTags collect n).isEmpty
  · have hpass : passFile collect n = n := by
      simp [passFile, h]
    rw [hpass]
    have hnil : noteNewTags collect n = [] := List.isEmpty_iff.mp h
    exact ⟨hnil, by rw [hpass]⟩
  · have hpass : passFile collect n =
        ⟨n.path,
          set_frontmatter_tags (ensure_frontmatter n.fm)
            (apply_new_tags
              (get_frontmatter_tags (ensure_frontmatter n.fm))
              (noteNewTags collect n)),
          n.body.dropWhile pyIsSpace⟩ := by
      simp [passFile, h]
    have hnd : (noteNewTags collect n).Nodup :=
      (nodup_sortDedup (collect n.body)).filter _
    have hdis : ∀ t ∈ noteNewTags collect n,
        t ∉ get_frontmatter_tags (ensure_frontmatter n.fm) := by
      intro t ht
      have := (List.mem_filter.mp ht).2
      simpa using this
    have happ : apply_new_tags
        (get_frontmatter_tags (ensure_frontmatter n.fm))
        (noteNewTags collect n)
        = get_frontmatter_tags (ensure_frontmatter n.fm)
          ++ noteNewTags collect n :=
      apply_new_tags_append _ _ hnd hdis
    have hcleanNew : ∀ t ∈ noteNewTags collect n, CleanTag t := by
      intro t ht
      apply hclean
      have h1 := (List.mem_filter.mp ht).1
      rw [mem_sortDedup] at h1
      exact h1
    have hget : get_frontmatter_tags
        (ensure_frontmatter (passFile collect n).fm)
        = get_frontmatter_tags (ensure_frontmatter n.fm)
          ++ noteNewTags collect n := by
      rw [hpass]
      dsimp only
      rw [ensure_frontmatter_eq, happ]
      apply get_set_frontmatter_tags
      intro w hw t ht
      rcases List.mem_append.mp ht with h1 | h1
      · have hex : get_frontmatter_tags (ensure_frontmatter n.fm)
            = splitCommaStrip w := by
          unfold get_frontmatter_tags
          rw [hw]
        rw [hex] at h1
        exact mem_splitCommaStrip_clean w t h1
      · exact hcleanNew t h1
    have hbody : (passFile collect n).body = n.body.dropWhile pyIsSpace := by
      rw [hpass]
    have hfin : noteNewTags collect (passFile collect n) = [] := by
      unfold noteNewTags
      rw [hbody, hstable, hget]
      apply List.filter_eq_nil_iff.mpr
      intro t ht
      by_cases hte : t ∈ get_frontmatter_tags (ensure_frontmatter n.fm)
      · simp [hte]
      · have htn : t ∈ noteNewTags collect n := by
          rw [noteNewTags, List.mem_filter]
          exact ⟨ht, by simpa using hte⟩
        simp [htn]
    exact ⟨hfin, passFile_of_no_new collect (passFile collect n) hfin⟩

/-- `collect_tags(body, rules)` for the single rule `pattern: "X"` /
`tag_format: "b"` (literal pattern, clean constant template); used to
witness the amended theorem. -/
def collectLit (b : Str) : List Str :=
  if occursIn ('X' :: []) b then [('b' :: [])] else []

/-- Witness for C3's amended theorem: a note with sequence-stored tags
`["a"]`, body `"X"`, and the rule rendering the clean tag `"b"`; its body
has no leading whitespace, so both provisos hold concretely, and after the
first pass the second computes no new tags and changes nothing. -/
theorem auto_tagger_second_pass_empty_witness :
    noteNewTags collectLit
        (passFile collectLit
          ⟨('n' :: []),
            [(.ystr ('t' :: 'a' :: 'g' :: 's' :: []),
              .yseq [.ystr ('a' :: [])])],
            ('X' :: [])⟩)
      = []
    ∧ passFile collectLit
        (passFile collectLit
          ⟨('n' :: []),
            [(.ystr ('t' :: 'a' :: 'g' :: 's' :: []),
              .yseq [.ystr ('a' :: [])])],
            ('X' :: [])⟩)
      = passFile collectLit
          ⟨('n' :: []),
            [(.ystr ('t' :: 'a' :: 'g' :: 's' :: []),
              .yseq [.ystr ('a' :: [])])],
            ('X' :: [])⟩ :=
  auto_tagger_second_pass_empty collectLit
    ⟨('n' :: []),
      [(.ystr ('t' :: 'a' :: 'g' :: 's' :: []), .yseq [.ystr ('a' :: [])])],
      ('X' :: [])⟩
    (by decide) (by decide)

/-- `_TAG_PATTERN.finditer(text)` from `find_tags_in_text`: collect the
names of inline tags `#name`, where `#` must not be preceded by a word
character or `/` (lookbehind) and `name` is a maximal nonempty run of tag
characters; matches do not overlap.  `skip` drops the characters of the
current match one at a time so that the lookbehind character is tracked
exactly as the regex engine sees it. -/
def findTagsAux : Option Char → Nat → Str → List Str
  | _, _, [] => []
  | _, k + 1, c :: rest => findTagsAux (some c) k rest
  | prev, 0, c :: rest =>
    if c = '#' && !prevBlocks prev then
      let run := rest.takeWhile isTagChar
      if run.isEmpty then findTagsAux (some c) 0 rest
      else run :: findTagsAux (some '#') run.length rest
    else findTagsAux (some c) 0 rest

/-- `find_tags_in_text(text)` from `tag_utils.py`, as the list of matches
in scan order; the Python function returns these as a set, and the only
consumer immediately sorts them, modelled by `sortDedup` at the call
site. -/
def find_tags_in_text (text : Str) : List Str :=
  findTagsAux none 0 text

/-- A staged tag rename proposal (`Proposal` dataclass of
`readwise_tag_sync.py`); the rapidfuzz score is modelled as a rational. -/
structure Proposal where
  path : Str
  location : Str
  original : Str
  suggested : Str
  score : Rat
deriving DecidableEq

/-- The external `rapidfuzz.process.extractOne(tag, candidates,
scorer=fuzz.ratio)` call: best candidate and its score, or `None`. -/
abbrev Scorer := Str → List Str → Option (Str × Rat)

/-- `best_match(tag, candidates)` from `readwise_tag_sync.py`: an empty
candidate list short-circuits to `None`; otherwise `extractOne` decides,
its `None` result passed through. -/
def best_match (scorer : Scorer) (tag : Str) (candidates : List Str) :
    Option (Str × Rat) :=
  if candidates.isEmpty then none else scorer tag candidates

/-- The location string `"frontmatter"`. -/
def locFrontmatter : Str := "frontmatter".data

/-- The location string `"body"`. -/
def locBody : Str := "body".data

/-- The per-location loop of `build_proposals`: iterate the tags, skip
values already seen, query `best_match`, and record a proposal plus a
staged update when a best candidate exists, differs from the tag, and
scores at or above the threshold. -/
def buildLoc (scorer : Scorer) (path loc : Str) (vocab : List Str)
    (threshold : Int) :
    List Str → List Str → List Proposal × List (Str × Str)
  | [], _ => ([], [])
  | t :: ts, seen =>
    if t ∈ seen then buildLoc scorer path loc vocab threshold ts seen
    else
      match best_match scorer t vocab with
      | none => buildLoc scorer path loc vocab threshold ts (t :: seen)
      | some (c, s) =>
        if c = t ∨ s < (threshold : Rat) then
          buildLoc scorer path loc vocab threshold ts (t :: seen)
        else
          (⟨path, loc, t, c, s⟩
              :: (buildLoc scorer path loc vocab threshold ts (t :: seen)).1,
            (t, c) :: (buildLoc scorer path loc vocab threshold ts (t :: seen)).2)

/-- `build_proposals(path, frontmatter_tags, body_tags, readwise_tags,
threshold)` from `readwise_tag_sync.py`: the frontmatter loop followed by
the body loop, returning the proposals plus the staged frontmatter and
body updates. -/
def build_proposals (scorer : Scorer) (path : Str)
    (frontmatterTags bodyTags vocab : List Str) (threshold : Int) :
    List Proposal × List (Str × Str) × List (Str × Str) :=
  let f := buildLoc scorer path locFrontmatter vocab threshold frontmatterTags []
  let b := buildLoc scorer path locBody vocab threshold bodyTags []
  (f.1 ++ b.1, f.2, b.2)

/-- `updates.get(tag)` over the staged updates in insertion order. -/
def lookupUpd : List (Str × Str) → Str → Option Str
  | [], _ => none
  | (k, v) :: rest, t => if k = t then some v else lookupUpd rest t

/-- `apply_updates(path, content_body, frontmatter_tags,
frontmatter_updates, body_updates)` from `readwise_tag_sync.py`:
substitute staged frontmatter renames, deduplicate preserving first
occurrences, and fold every staged body rename through the bounded
replacement. -/
def apply_updates (body : Str) (frontmatterTags : List Str)
    (fmUpdates bodyUpdates : List (Str × Str)) : List Str × Str :=
  let updated := frontmatterTags.map (fun t => (lookupUpd fmUpdates t).getD t)
  let deduped := dedupFirstAux [] updated
  let newBody := bodyUpdates.foldl
    (fun acc kv => replace_tag_in_text acc kv.1 kv.2) body
  (deduped, newBody)

/-- Round half to even (the tie rule of Python float formatting). -/
def roundHalfEven (q : Rat) : Int :=
  if q - ⌊q⌋ < 1 / 2 then ⌊q⌋
  else if 1 / 2 < q - ⌊q⌋ then ⌊q⌋ + 1
  else if ⌊q⌋ % 2 = 0 then ⌊q⌋ else ⌊q⌋ + 1

/-- `f"{score:.2f}"` for the scores involved (rapidfuzz ratios lie in
[0, 100]). -/
def fmt2 (q : Rat) : Str :=
  let n := roundHalfEven (q * 100)
  let m := n.natAbs
  let sign : Str := if n < 0 then '-' :: [] else []
  sign ++ (toString (m / 100)).data
    ++ '.' :: Char.ofNat ('0'.toNat + m / 10 % 10)
    :: Char.ofNat ('0'.toNat + m % 10) :: []

/-- The CSV header row written by `write_proposals`. -/
def csvHeader : List Str :=
  ["file".data, "location".data, "original_tag".data,
    "suggested_tag".data, "score".data]

/-- One CSV data row per proposal: file, location, original, suggested,
and the score formatted to two decimal places. -/
def proposalRow (p : Proposal) : List Str :=
  [p.path, p.location, p.original, p.suggested, fmt2 p.score]

/-- `write_proposals(csv_path, proposals)` from `readwise_tag_sync.py`, as
the rows written: the header and then one row per proposal, in order. -/
def write_proposals (proposals : List Proposal) : List (List Str) :=
  csvHeader :: proposals.map proposalRow

/-- The configuration key `"readwise_token_env"`. -/
def tokenEnvKey : Str := "readwise_token_env".data

/-- The default environment variable name `"READWISE_TOKEN"`. -/
def defaultTokenVar : Str := "READWISE_TOKEN".data

/-- `str(config.get("readwise_token_env", "READWISE_TOKEN"))`. -/
def envVarName (config : Fm) : Str :=
  pyStr ((fmGet config tokenEnvKey).getD (.ystr defaultTokenVar))

/-- `get_env_token(config)` from `tag_utils.py`: look up the configured
environment variable; `os.environ.get` is the explicit `env` map. -/
def get_env_token (config : Fm) (env : Str → Option Str) : Option Str :=
  env (envVarName config)

/-- Python truthiness of the token: `None` and the empty string are
falsy. -/
def tokenTruthy : Option Str → Bool
  | none => false
  | some [] => false
  | some (_ :: _) => true

/-- The report file name `"tag_proposal.csv"`. -/
def tagProposalName : Str := "tag_proposal.csv".data

/-- Per-file processing of the tag-sync `main` loop: parse results
(frontmatter and body of the note), ordered frontmatter tags, sorted body
tags, `build_proposals`, and the updated frontmatter/body that apply mode
would write.  Returns (file proposals, updated frontmatter, updated
body). -/
def syncFile (scorer : Scorer) (vocab : List Str) (threshold : Int)
    (n : Note) : List Proposal × Fm × Str :=
  let fm := ensure_frontmatter n.fm
  let frontmatterTags := get_frontmatter_tags fm
  let bodyTags := sortDedup (find_tags_in_text n.body)
  let r := build_proposals scorer n.path frontmatterTags bodyTags vocab threshold
  let u := apply_updates n.body frontmatterTags r.2.1 r.2.2
  (r.1, set_frontmatter_tags fm u.1, u.2)

/-- A markdown file as the two `main` loops meet it: path and raw text
content, read by `read_text` and still to be parsed — so the per-file
`parse_frontmatter` raise path (see the C2 correction) is represented. -/
structure RawNote where
  path : Str
  content : Str

/-- The proposals one file contributes, when its parse succeeds: the
frontmatter-and-body pipeline of the loop body.  A file whose parse
raises contributes nothing (the run aborts there). -/
def fileProposalsOf (scorer : Scorer) (vocab : List Str) (threshold : Int)
    (yload : Str → Except String Yaml) (f : RawNote) : List Proposal :=
  match parse_frontmatter yload f.content with
  | .ok (fm, body, _) => (syncFile scorer vocab threshold ⟨f.path, fm, body⟩).1
  | .error _ => []

/-- State accumulated by the tag-sync per-file loop: whether an uncaught
parse exception aborted it, the proposals collected, the files read, and
the files written back so far. -/
structure SyncLoopOut where
  crashed : Bool
  proposals : List Proposal
  reads : List Str
  writes : List (Str × Fm × Str)

/-- The per-file loop of `readwise_tag_sync.py`'s `main`: each file is
read, parsed, processed via `build_proposals`, and written back when apply
mode is active and it has proposals.  A `parse_frontmatter` raise is
uncaught: the loop stops at that file (it was read; nothing later is
processed, and `write_proposals` is never reached). -/
def syncLoop (scorer : Scorer) (vocab : List Str) (threshold : Int)
    (yload : Str → Except String Yaml) (applyChanges : Bool) :
    List RawNote → SyncLoopOut
  | [] => ⟨false, [], [], []⟩
  | f :: fs =>
    match parse_frontmatter yload f.content with
    | .error _ => ⟨true, [], [f.path], []⟩
    | .ok (fm, body, _) =>
      let r := syncFile scorer vocab threshold ⟨f.path, fm, body⟩
      let rest := syncLoop scorer vocab threshold yload applyChanges fs
      ⟨rest.crashed, r.1 ++ rest.proposals, f.path :: rest.reads,
        (if applyChanges && !r.1.isEmpty then [(f.path, r.2.1, r.2.2)]
          else []) ++ rest.writes⟩

/-- Result of a tag-sync run: exit code, the CSV artifact (path and rows,
`none` when `write_proposals` is never reached), the vault files read, and
the vault files written back (path, new frontmatter, new body). -/
structure SyncResult where
  exitCode : Nat
  csv : Option (Str × List (List Str))
  reads : List Str
  writes : List (Str × Fm × Str)

/-- `main()` of `readwise_tag_sync.py` after configuration loading.
External inputs are explicit: the process environment `env`, the outcome
of `fetch_readwise_tags` (an HTTP failure, or the sorted deduplicated
vocabulary), the external YAML reader `yload`, and the fuzzy scorer.
`configDir` is the directory of the resolved configuration path; the CSV
is written beside it as `tag_proposal.csv`.  Control flow mirrors the
source: a missing or empty token exits 1 before any fetch, file or CSV
work; a fetch failure exits 1 likewise; otherwise the per-file loop runs,
and on normal completion the CSV report is written and the process exits
0.  An uncaught per-file exception aborts the run before
`write_proposals` — no CSV, the interpreter exits 1 — keeping the files
already written. -/
def runTagSync (scorer : Scorer) (config : Fm) (configDir : Str)
    (env : Str → Option Str) (fetch : Except Unit (List Str))
    (yload : Str → Except String Yaml) (vault : List RawNote)
    (applyFlag dryRunFlag : Bool) : SyncResult :=
  if !tokenTruthy (get_env_token config env) then ⟨1, none, [], []⟩
  else
    match fetch with
    | .error _ => ⟨1, none, [], []⟩
    | .ok vocab =>
      let out := syncLoop scorer vocab (similarity_threshold config) yload
        (applyFlag && !dryRunFlag) vault
      if out.crashed then ⟨1, none, out.reads, out.writes⟩
      else
        ⟨0, some (configDir ++ '/' :: tagProposalName,
            write_proposals out.proposals),
          out.reads, out.writes⟩

/-- The new tags one file contributes to the auto-tagger, when its parse
succeeds (`collect` is the rule set's per-body tag derivation, as for
`noteNewTags`).  A file whose parse raises contributes nothing (the run
aborts there). -/
def fileNewTagsOf (collect : Str → List Str)
    (yload : Str → Except String Yaml) (f : RawNote) : List Str :=
  match parse_frontmatter yload f.content with
  | .ok (fm, body, _) =>
    (sortDedup (collect body)).filter
      (fun t => decide (t ∉ get_frontmatter_tags (ensure_frontmatter fm)))
  | .error _ => []

/-- State accumulated by the auto-tagger per-file loop: whether an
uncaught parse exception aborted it, the `total_updates` counter, and the
files written back so far. -/
structure TagLoopOut where
  crashed : Bool
  updates : Nat
  writes : List (Str × Fm × Str)

/-- The per-file loop of `obsidian_auto_tagger.py`'s `main`: each file is
read and parsed, its new tags computed; files with none are skipped, the
rest are counted and written back when apply mode is active.  A
`parse_frontmatter` raise is uncaught and stops the loop at that file. -/
def tagLoop (collect : Str → List Str) (yload : Str → Except String Yaml)
    (applyChanges : Bool) : List RawNote → TagLoopOut
  | [] => ⟨false, 0, []⟩
  | f :: fs =>
    match parse_frontmatter yload f.content with
    | .error _ => ⟨true, 0, []⟩
    | .ok (fm, body, _) =>
      let existing := get_frontmatter_tags (ensure_frontmatter fm)
      let newTags := (sortDedup (collect body)).filter
        (fun t => decide (t ∉ existing))
      let rest := tagLoop collect yload applyChanges fs
      if newTags.isEmpty then rest
      else
        ⟨rest.crashed, rest.updates + 1,
          (if applyChanges then
            [(f.path,
              set_frontmatter_tags (ensure_frontmatter fm)
                (apply_new_tags existing newTags), body)]
          else []) ++ rest.writes⟩

/-- Result of an auto-tagger run: exit code, files written back, and the
`total_updates` counter. -/
structure TagResult where
  exitCode : Nat
  writes : List (Str × Fm × Str)
  updates : Nat

/-- `main()` of `obsidian_auto_tagger.py` after configuration and rule
loading, for a nonempty rule set with per-body tag derivation `collect`
(the `if not rules` early exit — log and exit 0 before touching any
file — is never reached then).  Files are written back only in apply mode
(`--apply` and not `--dry-run`); an uncaught per-file parse exception
makes the interpreter exit 1, keeping the files already written. -/
def runAutoTagger (collect : Str → List Str)
    (yload : Str → Except String Yaml) (vault : List RawNote)
    (applyFlag dryRunFlag : Bool) : TagResult :=
  let out := tagLoop collect yload (applyFlag && !dryRunFlag) vault
  ⟨if out.crashed then 1 else 0, out.writes, out.updates⟩

/-- C5, confirmed.  When the configured credential environment variable is
unset (more precisely, whenever the token is falsy), the tag-sync run
exits with code 1 before any other work: no CSV report is written, no
vault file is read, and no file is modified — for every configuration,
environment, fetch outcome, YAML reader, vault, and flag combination. -/
theorem missing_credential_halts
    (scorer : Scorer) (config : Fm) (configDir : Str)
    (env : Str → Option Str) (fetch : Except Unit (List Str))
    (yload : Str → Except String Yaml) (vault : List RawNote)
    (applyFlag dryRunFlag : Bool)
    (h : tokenTruthy (get_env_token config env) = false) :
    runTagSync scorer config configDir env fetch yload vault applyFlag
      dryRunFlag = ⟨1, none, [], []⟩ := by
  simp [runTagSync, h]

/-- Witness for C5: a run against an empty environment halts with exit
code 1 and performs no work. -/
theorem missing_credential_halts_witness :
    runTagSync (fun _ _ => none) [] [] (fun _ => none) (.error ())
        miniYamlLoad [] true false
      = ⟨1, none, [], []⟩ :=
  missing_credential_halts (fun _ _ => none) [] [] (fun _ => none)
    (.error ()) miniYamlLoad [] true false rfl

/-- C10, confirmed.  A credential variable that is set but holds the empty
string is treated identically to an unset variable: `if not token` is
taken for the empty string, so the run exits 1 with no CSV, no reads and
no writes, and the whole run result equals the result with the variable
erased from the environment. -/
theorem empty_token_like_unset
    (scorer : Scorer) (config : Fm) (configDir : Str)
    (env : Str → Option Str) (fetch : Except Unit (List Str))
    (yload : Str → Except String Yaml) (vault : List RawNote)
    (applyFlag dryRunFlag : Bool)
    (h : get_env_token config env = some []) :
    runTagSync scorer config configDir env fetch yload vault applyFlag
      dryRunFlag = ⟨1, none, [], []⟩
    ∧ runTagSync scorer config configDir env fetch yload vault applyFlag
      dryRunFlag
      = runTagSync scorer config configDir
          (fun v => if v = envVarName config then none else env v)
          fetch yload vault applyFlag dryRunFlag := by
  have h1 : tokenTruthy (get_env_token config env) = false := by
    rw [h]; rfl
  have h2 : tokenTruthy (get_env_token config
      (fun v => if v = envVarName config then none else env v)) = false := by
    simp [get_env_token, tokenTruthy]
  constructor
  · simp [runTagSync, h1]
  · simp [runTagSync, h1, h2]

/-- Witness for C10: an environment mapping every variable to the empty
string triggers the missing-credential path. -/
theorem empty_token_like_unset_witness :
    runTagSync (fun _ _ => none) [] [] (fun _ => some []) (.error ())
        miniYamlLoad [] true false
      = ⟨1, none, [], []⟩
    ∧ runTagSync (fun _ _ => none) [] [] (fun _ => some []) (.error ())
        miniYamlLoad [] true false
      = runTagSync (fun _ _ => none) [] []
          (fun v => if v = envVarName [] then none else some [])
          (.error ()) miniYamlLoad [] true false :=
  empty_token_like_unset (fun _ _ => none) [] [] (fun _ => some [])
    (.error ()) miniYamlLoad [] true false rfl

/-- The crash flag, collected proposals and read set of the tag-sync loop
do not depend on apply mode (only the writes do). -/
theorem syncLoop_flags_inv (scorer : Scorer) (vocab : List Str)
    (threshold : Int) (yload : Str → Except String Yaml) (a1 a2 : Bool) :
    ∀ fs : List RawNote,
      (syncLoop scorer vocab threshold yload a1 fs).crashed
        = (syncLoop scorer vocab threshold yload a2 fs).crashed
      ∧ (syncLoop scorer vocab threshold yload a1 fs).proposals
        = (syncLoop scorer vocab threshold yload a2 fs).proposals
      ∧ (syncLoop scorer vocab threshold yload a1 fs).reads
        = (syncLoop scorer vocab threshold yload a2 fs).reads := by
  intro fs
  induction fs with
  | nil => exact ⟨rfl, rfl, rfl⟩
  | cons f fs ih =>
    cases h : parse_frontmatter yload f.content with
    | error e => simp [syncLoop, h]
    | ok t =>
      obtain ⟨fm, body, flag⟩ := t
      simp [syncLoop, h, ih.1, ih.2.1, ih.2.2]

/-- When every file parses cleanly the loop completes, collecting every
file's proposals in order. -/
theorem syncLoop_no_crash (scorer : Scorer) (vocab : List Str)
    (threshold : Int) (yload : Str → Except String Yaml) (ac : Bool) :
    ∀ fs : List RawNote,
      (∀ f ∈ fs, exceptOk (parse_frontmatter yload f.content) = true) →
      (syncLoop scorer vocab threshold yload ac fs).crashed = false
      ∧ (syncLoop scorer vocab threshold yload ac fs).proposals
        = (fs.map (fun f =>
            fileProposalsOf scorer vocab threshold yload f)).flatten := by
  intro fs
  induction fs with
  | nil => intro _; exact ⟨rfl, rfl⟩
  | cons f fs ih =>
    intro H
    have hf := H f (List.mem_cons_self f fs)
    cases h : parse_frontmatter yload f.content with
    | error e =>
      rw [h] at hf
      exact absurd hf (by simp [exceptOk])
    | ok t =>
      obtain ⟨fm, body, flag⟩ := t
      obtain ⟨ih1, ih2⟩ := ih (fun g hg => H g (List.mem_cons_of_mem f hg))
      refine ⟨by simp [syncLoop, h, ih1], ?_⟩
      simp [syncLoop, h, ih2, fileProposalsOf]

/-- In dry-run mode the loop writes nothing, crash or not. -/
theorem syncLoop_dry_writes (scorer : Scorer) (vocab : List Str)
    (threshold : Int) (yload : Str → Except String Yaml) :
    ∀ fs : List RawNote,
      (syncLoop scorer vocab threshold yload false fs).writes = [] := by
  intro fs
  induction fs with
  | nil => rfl
  | cons f fs ih =>
    cases h : parse_frontmatter yload f.content with
    | error e => simp [syncLoop, h]
    | ok t =>
      obtain ⟨fm, body, flag⟩ := t
      simp [syncLoop, h, ih]

/-- When every file parses cleanly, apply mode writes exactly the files
with proposals. -/
theorem syncLoop_apply_writes (scorer : Scorer) (vocab : List Str)
    (threshold : Int) (yload : Str → Except String Yaml) :
    ∀ fs : List RawNote,
      (∀ f ∈ fs, exceptOk (parse_frontmatter yload f.content) = true) →
      ((syncLoop scorer vocab threshold yload true fs).writes.map
        (fun w => w.1))
        = (fs.filter (fun f =>
            !(fileProposalsOf scorer vocab threshold yload f).isEmpty)).map
            (fun f => f.path) := by
  intro fs
  induction fs with
  | nil => intro _; rfl
  | cons f fs ih =>
    intro H
    have hf := H f (List.mem_cons_self f fs)
    cases h : parse_frontmatter yload f.content with
    | error e =>
      rw [h] at hf
      exact absurd hf (by simp [exceptOk])
    | ok t =>
      obtain ⟨fm, body, flag⟩ := t
      have ih2 := ih (fun g hg => H g (List.mem_cons_of_mem f hg))
      have hfp : fileProposalsOf scorer vocab threshold yload f
          = (syncFile scorer vocab threshold ⟨f.path, fm, body⟩).1 := by
        unfold fileProposalsOf
        rw [h]
      by_cases hemp : (syncFile scorer vocab threshold
          ⟨f.path, fm, body⟩).1.isEmpty
      · have hcond : (!(fileProposalsOf scorer vocab threshold
            yload f).isEmpty) = false := by
          rw [hfp, hemp]; rfl
        rw [List.filter_cons, hcond]
        simp [syncLoop, h, hemp, ih2]
      · have h2 : (syncFile scorer vocab threshold
            ⟨f.path, fm, body⟩).1.isEmpty = false := by
          simpa using hemp
        have hcond : (!(fileProposalsOf scorer vocab threshold
            yload f).isEmpty) = true := by
          rw [hfp, h2]; rfl
        rw [List.filter_cons, hcond]
        simp [syncLoop, h, h2, ih2]

/-- In dry-run mode the auto-tagger loop writes nothing, crash or not. -/
theorem tagLoop_dry_writes (collect : Str → List Str)
    (yload : Str → Except String Yaml) :
    ∀ fs : List RawNote, (tagLoop collect yload false fs).writes = [] := by
  intro fs
  induction fs with
  | nil => rfl
  | cons f fs ih =>
    cases h : parse_frontmatter yload f.content with
    | error e => simp [tagLoop, h]
    | ok t =>
      obtain ⟨fm, body, flag⟩ := t
      simp only [tagLoop, h]
      split
      · exact ih
      · simpa using ih

/-- When every file parses cleanly, apply mode writes exactly the files
with new tags. -/
theorem tagLoop_apply_writes (collect : Str → List Str)
    (yload : Str → Except String Yaml) :
    ∀ fs : List RawNote,
      (∀ f ∈ fs, exceptOk (parse_frontmatter yload f.content) = true) →
      ((tagLoop collect yload true fs).writes.map (fun w => w.1))
        = (fs.filter (fun f =>
            !(fileNewTagsOf collect yload f).isEmpty)).map
            (fun f => f.path) := by
  intro fs
  induction fs with
  | nil => intro _; rfl
  | cons f fs ih =>
    intro H
    have hf := H f (List.mem_cons_self f fs)
    cases h : parse_frontmatter yload f.content with
    | error e =>
      rw [h] at hf
      exact absurd hf (by simp [exceptOk])
    | ok t =>
      obtain ⟨fm, body, flag⟩ := t
      have ih2 := ih (fun g hg => H g (List.mem_cons_of_mem f hg))
      have hfn : fileNewTagsOf collect yload f
          = (sortDedup (collect body)).filter (fun t => decide
              (t ∉ get_frontmatter_tags (ensure_frontmatter fm))) := by
        unfold fileNewTagsOf
        rw [h]
      simp only [tagLoop, h, List.filter_cons]
      by_cases hn : ((sortDedup (collect body)).filter (fun t => decide
          (t ∉ get_frontmatter_tags (ensure_frontmatter fm)))).isEmpty
      · have hcond : (!(fileNewTagsOf collect yload f).isEmpty) = false := by
          rw [hfn, hn]; rfl
        rw [hcond, if_pos hn]
        exact ih2
      · have h2 : ((sortDedup (collect body)).filter (fun t => decide
            (t ∉ get_frontmatter_tags (ensure_frontmatter fm)))).isEmpty
            = false := by
          simpa using hn
        have hcond : (!(fileNewTagsOf collect yload f).isEmpty) = true := by
          rw [hfn, h2]; rfl
        rw [hcond, if_neg hn]
        exact congrArg (fun l => f.path :: l) ih2

/-- C7, counterexample.  The claim says every run that reaches the
per-file phase writes the CSV report.  But a vault containing the note
`"---\nhello\n---\n"` — whose frontmatter loads as a truthy scalar, the
C2 counterexample — makes `parse_frontmatter` raise inside the loop: the
run HAS reached the per-file phase (the token was present, the fetch
succeeded, and the file was read), yet the uncaught exception aborts it
before `write_proposals`, so no CSV is written and the process exits 1. -/
theorem csv_report_crash_counterexample :
    (runTagSync (fun _ _ => none) [] [] (fun _ => some ('t' :: []))
        (.ok []) miniYamlLoad
        [⟨('a' :: []),
          ('-' :: '-' :: '-' :: '\n' :: 'h' :: 'e' :: 'l' :: 'l' :: 'o'
            :: '\n' :: '-' :: '-' :: '-' :: '\n' :: [])⟩]
        true false).csv = none
    ∧ (runTagSync (fun _ _ => none) [] [] (fun _ => some ('t' :: []))
        (.ok []) miniYamlLoad
        [⟨('a' :: []),
          ('-' :: '-' :: '-' :: '\n' :: 'h' :: 'e' :: 'l' :: 'l' :: 'o'
            :: '\n' :: '-' :: '-' :: '-' :: '\n' :: [])⟩]
        true false).reads = [('a' :: [])]
    ∧ tokenTruthy (get_env_token [] (fun _ => some ('t' :: []))) = true := by
  decide

/-- C7, amended.  On every tag-sync run that reaches the per-file phase
AND in which every vault file's frontmatter parses without raising, the
CSV report is written beside the resolved configuration file as
`tag_proposal.csv`, with the header row
`file, location, original_tag, suggested_tag, score` followed by exactly
one row per proposal generated across the whole run (scores formatted to
two decimals by `proposalRow`); it is written even when there are zero
proposals (header only), and its contents do not depend on the
`--apply`/`--dry-run` flags.  When some file's parse raises, the run
aborts before `write_proposals` and no CSV is written (see the
counterexample). -/
theorem csv_report_complete
    (scorer : Scorer) (config : Fm) (configDir : Str)
    (env : Str → Option Str) (fetch : Except Unit (List Str))
    (yload : Str → Except String Yaml) (vault : List RawNote)
    (applyFlag dryRunFlag : Bool) :
    (∀ vocab : List Str, tokenTruthy (get_env_token config env) = true →
      fetch = .ok vocab →
      (∀ f ∈ vault, exceptOk (parse_frontmatter yload f.content) = true) →
      (runTagSync scorer config configDir env fetch yload vault applyFlag
          dryRunFlag).csv
        = some (configDir ++ '/' :: tagProposalName,
            csvHeader ::
              ((vault.map (fun f => fileProposalsOf scorer vocab
                  (similarity_threshold config) yload f)).flatten).map
                proposalRow))
    ∧ ∀ a d : Bool,
      (runTagSync scorer config configDir env fetch yload vault applyFlag
          dryRunFlag).csv
        = (runTagSync scorer config configDir env fetch yload vault
            a d).csv := by
  constructor
  · intro vocab ht hf hparse
    subst hf
    obtain ⟨hc, hp⟩ := syncLoop_no_crash scorer vocab
      (similarity_threshold config) yload (applyFlag && !dryRunFlag)
      vault hparse
    simp [runTagSync, ht, hc, hp, write_proposals]
  · intro a d
    by_cases ht : tokenTruthy (get_env_token config env)
    · cases fetch with
      | error e => simp [runTagSync, ht]
      | ok vocab =>
        obtain ⟨h1, h2, -⟩ := syncLoop_flags_inv scorer vocab
          (similarity_threshold config) yload (applyFlag && !dryRunFlag)
          (a && !d) vault
        by_cases hc : (syncLoop scorer vocab (similarity_threshold config)
            yload (a && !d) vault).crashed
        · simp [runTagSync, ht, h1, h2, hc]
        · simp [runTagSync, ht, h1, h2, hc]
    · simp at ht
      simp [runTagSync, ht]

/-- Witness for C7's amended theorem: with a present token, a successful
empty fetch and an empty vault (vacuously clean), the run writes the
header-only report beside the configuration directory. -/
theorem csv_report_complete_witness :
    (runTagSync (fun _ _ => none) [] [] (fun _ => some ('t' :: []))
        (.ok []) miniYamlLoad [] true false).csv
      = some (([] : Str) ++ '/' :: tagProposalName, csvHeader :: []) :=
  (csv_report_complete (fun _ _ => none) [] [] (fun _ => some ('t' :: []))
    (.ok []) miniYamlLoad [] true false).1 [] rfl rfl
    (fun f hf => absurd hf (List.not_mem_nil f))

/-- C9, counterexample.  The claim says `--apply` alone writes every file
for which proposals exist.  Take a vault whose first note is the C2
crasher and whose second note `"#old"` has a proposal (the scorer matches
it to the vocabulary word `"new"` at score 100, above the default
threshold 80): the uncaught parse exception on the first file aborts the
loop, so the run writes NO file although the second has a proposal. -/
theorem apply_writes_crash_counterexample :
    (runTagSync (fun _ _ => some (('n' :: 'e' :: 'w' :: []), (100 : Rat)))
        [] [] (fun _ => some ('t' :: []))
        (.ok [('n' :: 'e' :: 'w' :: [])]) miniYamlLoad
        [⟨('a' :: []),
          ('-' :: '-' :: '-' :: '\n' :: 'h' :: 'e' :: 'l' :: 'l' :: 'o'
            :: '\n' :: '-' :: '-' :: '-' :: '\n' :: [])⟩,
          ⟨('b' :: []), ('#' :: 'o' :: 'l' :: 'd' :: [])⟩]
        true false).writes.isEmpty = true
    ∧ (fileProposalsOf
        (fun _ _ => some (('n' :: 'e' :: 'w' :: []), (100 : Rat)))
        [('n' :: 'e' :: 'w' :: [])] (similarity_threshold [])
        miniYamlLoad
        ⟨('b' :: []), ('#' :: 'o' :: 'l' :: 'd' :: [])⟩).isEmpty
      = false := by
  decide

/-- C9, amended.  In both CLIs, vault files are written back only when
`--apply` is set and `--dry-run` is not: with both flags no vault file is
modified, even on runs aborted by a parse exception (the tag-sync CSV
report is a separate artifact, written regardless of mode).  With
`--apply` alone, PROVIDED every vault file's frontmatter parses without
raising, every file for which new tags (auto-tagger) or proposals
(tag-sync, once the per-file phase is reached) exist is written, and no
other; a file whose parse raises aborts the run, leaving it and all later
files unwritten while files already written stay written (see the
counterexample). -/
theorem apply_dry_run_precedence
    (collect : Str → List Str) (scorer : Scorer) (config : Fm)
    (configDir : Str) (env : Str → Option Str)
    (fetch : Except Unit (List Str)) (yload : Str → Except String Yaml)
    (vault : List RawNote) :
    ((runAutoTagger collect yload vault true true).writes = []
      ∧ (runTagSync scorer config configDir env fetch yload vault true
          true).writes = [])
    ∧ ((∀ f ∈ vault, exceptOk (parse_frontmatter yload f.content) = true) →
        (runAutoTagger collect yload vault true false).writes.map
            (fun w => w.1)
          = (vault.filter (fun f =>
              !(fileNewTagsOf collect yload f).isEmpty)).map
              (fun f => f.path))
    ∧ (∀ vocab : List Str, tokenTruthy (get_env_token config env) = true →
        fetch = .ok vocab →
        (∀ f ∈ vault, exceptOk (parse_frontmatter yload f.content) = true) →
        (runTagSync scorer config configDir env fetch yload vault true
            false).writes.map (fun w => w.1)
          = (vault.filter (fun f =>
              !(fileProposalsOf scorer vocab (similarity_threshold config)
                yload f).isEmpty)).map (fun f => f.path)) := by
  refine ⟨⟨?_, ?_⟩, ?_, ?_⟩
  · simp only [runAutoTagger]
    exact tagLoop_dry_writes collect yload vault
  · by_cases ht : tokenTruthy (get_env_token config env)
    · cases fetch with
      | error e => simp [runTagSync, ht]
      | ok vocab =>
        have hw := syncLoop_dry_writes scorer vocab
          (similarity_threshold config) yload vault
        by_cases hc : (syncLoop scorer vocab (similarity_threshold config)
            yload false vault).crashed
        · simp [runTagSync, ht, hc, hw]
        · simp [runTagSync, ht, hc, hw]
    · simp at ht
      simp [runTagSync, ht]
  · intro hparse
    simp only [runAutoTagger]
    exact tagLoop_apply_writes collect yload vault hparse
  · intro vocab ht hf hparse
    subst hf
    have hc := (syncLoop_no_crash scorer vocab (similarity_threshold config)
      yload (true && !false) vault hparse).1
    simp only [runTagSync, ht, Bool.not_true, Bool.false_eq_true, if_false]
    rw [hc]
    exact syncLoop_apply_writes scorer vocab (similarity_threshold config)
      yload vault hparse

/-- Witness for C9's amended theorem: with an (empty) rule derivation and
an empty vault neither tool writes, and the tag-sync run with `--apply`
alone writes exactly the (empty) set of files with proposals. -/
theorem apply_dry_run_precedence_witness :
    (runAutoTagger (fun _ => []) miniYamlLoad [] true true).writes = []
    ∧ (runTagSync (fun _ _ => none) [] [] (fun _ => some ('t' :: []))
        (.ok []) miniYamlLoad [] true false).writes.map (fun w => w.1)
      = [] := by
  refine ⟨(apply_dry_run_precedence (fun _ => []) (fun _ _ => none) [] []
    (fun _ => some ('t' :: [])) (.ok []) miniYamlLoad []).1.1, ?_⟩
  have h := (apply_dry_run_precedence (fun _ => []) (fun _ _ => none) [] []
    (fun _ => some ('t' :: [])) (.ok []) miniYamlLoad []).2.2 [] rfl rfl
    (fun f hf => absurd hf (List.not_mem_nil f))
  simpa using h

/-- Every proposal produced by the per-location loop carries the loop's
path and location, and an original tag drawn from the input list and not
previously seen. -/
theorem buildLoc_mem_shape (scorer : Scorer) (path loc : Str)
    (vocab : List Str) (thr : Int) :
    ∀ (ts seen : List Str) (p : Proposal),
      p ∈ (buildLoc scorer path loc vocab thr ts seen).1 →
      p.path = path ∧ p.location = loc ∧ p.original ∈ ts
        ∧ p.original ∉ seen := by
  intro ts
  induction ts with
  | nil => intro seen p hp; simp [buildLoc] at hp
  | cons u us ih =>
    intro seen p hp
    by_cases hu : u ∈ seen
    · rw [buildLoc, if_pos hu] at hp
      obtain ⟨h1, h2, h3, h4⟩ := ih seen p hp
      exact ⟨h1, h2, List.mem_cons_of_mem u h3, h4⟩
    · rw [buildLoc, if_neg hu] at hp
      cases hbm : best_match scorer u vocab with
      | none =>
        rw [hbm] at hp
        dsimp only at hp
        obtain ⟨h1, h2, h3, h4⟩ := ih (u :: seen) p hp
        exact ⟨h1, h2, List.mem_cons_of_mem u h3,
          fun hx => h4 (List.mem_cons_of_mem u hx)⟩
      | some cs =>
        obtain ⟨c0, s0⟩ := cs
        rw [hbm] at hp
        dsimp only at hp
        by_cases hcnd : c0 = u ∨ s0 < (thr : Rat)
        · rw [if_pos hcnd] at hp
          obtain ⟨h1, h2, h3, h4⟩ := ih (u :: seen) p hp
          exact ⟨h1, h2, List.mem_cons_of_mem u h3,
            fun hx => h4 (List.mem_cons_of_mem u hx)⟩
        · rw [if_neg hcnd] at hp
          dsimp only at hp
          rcases List.mem_cons.mp hp with rfl | hp2
          · exact ⟨rfl, rfl, List.mem_cons_self u us, hu⟩
          · obtain ⟨h1, h2, h3, h4⟩ := ih (u :: seen) p hp2
            exact ⟨h1, h2, List.mem_cons_of_mem u h3,
              fun hx => h4 (List.mem_cons_of_mem u hx)⟩

/-- Characterization of membership in the per-location proposal list. -/
theorem buildLoc_mem_iff (scorer : Scorer) (path loc : Str)
    (vocab : List Str) (thr : Int) :
    ∀ (ts seen : List Str) (t c : Str) (s : Rat),
      ((⟨path, loc, t, c, s⟩ : Proposal)
          ∈ (buildLoc scorer path loc vocab thr ts seen).1)
      ↔ t ∈ ts ∧ t ∉ seen ∧ best_match scorer t vocab = some (c, s)
          ∧ c ≠ t ∧ (thr : Rat) ≤ s := by
  intro ts
  induction ts with
  | nil => intro seen t c s; simp [buildLoc]
  | cons u us ih =>
    intro seen t c s
    by_cases hu : u ∈ seen
    · rw [buildLoc, if_pos hu, ih seen]
      constructor
      · rintro ⟨h1, hrest⟩
        exact ⟨List.mem_cons_of_mem u h1, hrest⟩
      · rintro ⟨h1, h2, hrest⟩
        rcases List.mem_cons.mp h1 with rfl | h3
        · exact absurd hu h2
        · exact ⟨h3, h2, hrest⟩
    · rw [buildLoc, if_neg hu]
      cases hbm : best_match scorer u vocab with
      | none =>
        dsimp only
        rw [ih (u :: seen)]
        constructor
        · rintro ⟨h1, h2, hrest⟩
          exact ⟨List.mem_cons_of_mem u h1,
            fun hx => h2 (List.mem_cons_of_mem u hx), hrest⟩
        · rintro ⟨h1, h2, h3, hrest⟩
          by_cases htu : t = u
          · subst htu
            rw [hbm] at h3
            exact Option.noConfusion h3
          · rcases List.mem_cons.mp h1 with h0 | h4
            · exact absurd h0 htu
            · exact ⟨h4, fun hx => (List.mem_cons.mp hx).elim htu h2,
                h3, hrest⟩
      | some cs =>
        obtain ⟨c0, s0⟩ := cs
        dsimp only
        by_cases hcnd : c0 = u ∨ s0 < (thr : Rat)
        · rw [if_pos hcnd, ih (u :: seen)]
          constructor
          · rintro ⟨h1, h2, hrest⟩
            exact ⟨List.mem_cons_of_mem u h1,
              fun hx => h2 (List.mem_cons_of_mem u hx), hrest⟩
          · rintro ⟨h1, h2, h3, h4, h5⟩
            by_cases htu : t = u
            · subst htu
              rw [hbm] at h3
              injection h3 with h6
              obtain ⟨hc, hs⟩ := Prod.mk.injEq .. ▸ h6
              rcases hcnd with h7 | h7
              · exact absurd (hc ▸ h7) h4
              · exact absurd (hs ▸ h7) (not_lt.mpr h5)
            · rcases List.mem_cons.mp h1 with h0 | h6
              · exact absurd h0 htu
              · exact ⟨h6, fun hx => (List.mem_cons.mp hx).elim htu h2,
                  h3, h4, h5⟩
        · rw [if_neg hcnd]
          dsimp only
          rw [List.mem_cons, ih (u :: seen)]
          constructor
          · rintro (heq | ⟨h1, h2, hrest⟩)
            · injection heq with hp hl ht hc hs
              subst ht
              subst hc
              subst hs
              push_neg at hcnd
              exact ⟨List.mem_cons_self t us, hu, hbm, hcnd.1, hcnd.2⟩
            · exact ⟨List.mem_cons_of_mem u h1,
                fun hx => h2 (List.mem_cons_of_mem u hx), hrest⟩
          · rintro ⟨h1, h2, h3, h4, h5⟩
            by_cases htu : t = u
            · subst htu
              left
              rw [hbm] at h3
              injection h3 with h6
              obtain ⟨hc, hs⟩ := Prod.mk.injEq .. ▸ h6
              rw [hc, hs]
            · right
              rcases List.mem_cons.mp h1 with h0 | h6
              · exact absurd h0 htu
              · exact ⟨h6, fun hx => (List.mem_cons.mp hx).elim htu h2,
                  h3, h4, h5⟩

/-- The original tags of the per-location proposals are pairwise distinct:
each distinct tag value is processed once. -/
theorem buildLoc_originals_nodup (scorer : Scorer) (path loc : Str)
    (vocab : List Str) (thr : Int) :
    ∀ (ts seen : List Str),
      ((buildLoc scorer path loc vocab thr ts seen).1.map
        (fun p => p.original)).Nodup := by
  intro ts
  induction ts with
  | nil => intro seen; simp [buildLoc]
  | cons u us ih =>
    intro seen
    by_cases hu : u ∈ seen
    · rw [buildLoc, if_pos hu]
      exact ih seen
    · rw [buildLoc, if_neg hu]
      cases hbm : best_match scorer u vocab with
      | none =>
        dsimp only
        exact ih (u :: seen)
      | some cs =>
        obtain ⟨c0, s0⟩ := cs
        dsimp only
        by_cases hcnd : c0 = u ∨ s0 < (thr : Rat)
        · rw [if_pos hcnd]
          exact ih (u :: seen)
        · rw [if_neg hcnd]
          dsimp only
          rw [List.map_cons, List.nodup_cons]
          refine ⟨?_, ih (u :: seen)⟩
          intro hmem
          rw [List.mem_map] at hmem
          obtain ⟨p, hp, hpo⟩ := hmem
          exact (buildLoc_mem_shape scorer path loc vocab thr us (u :: seen)
            p hp).2.2.2 (hpo ▸ List.mem_cons_self u seen)

/-- A duplicate-free list whose members are all equal has at most one
element. -/
theorem length_le_one_of_nodup_all_eq {l : List Str} (t : Str)
    (hn : l.Nodup) (hall : ∀ x ∈ l, x = t) : l.length ≤ 1 := by
  cases l with
  | nil => simp
  | cons a l2 =>
    cases l2 with
    | nil => simp
    | cons b l3 =>
      have ha := hall a (List.mem_cons_self a _)
      have hb := hall b (List.mem_cons_of_mem a (List.mem_cons_self b l3))
      subst ha
      rw [List.nodup_cons] at hn
      exact absurd (hb ▸ List.mem_cons_self b l3 : a ∈ b :: l3) hn.1

/-- At most one proposal of a per-location list matches a given location
and original tag. -/
theorem buildLoc_countP_le_one (scorer : Scorer) (path loc : Str)
    (vocab : List Str) (thr : Int) (ts seen : List Str) (loc0 t : Str) :
    ((buildLoc scorer path loc vocab thr ts seen).1.countP
      (fun p => decide (p.location = loc0 ∧ p.original = t))) ≤ 1 := by
  rw [List.countP_eq_length_filter]
  have hsub : List.Sublist
      (((buildLoc scorer path loc vocab thr ts seen).1.filter
        (fun p => decide (p.location = loc0 ∧ p.original = t))).map
          (fun p => p.original))
      (((buildLoc scorer path loc vocab thr ts seen).1).map
        (fun p => p.original)) :=
    (List.filter_sublist _).map _
  have hnd : (((buildLoc scorer path loc vocab thr ts seen).1.filter
      (fun p => decide (p.location = loc0 ∧ p.original = t))).map
        (fun p => p.original)).Nodup :=
    (buildLoc_originals_nodup scorer path loc vocab thr ts seen).sublist hsub
  have hall : ∀ x ∈ (((buildLoc scorer path loc vocab thr ts seen).1.filter
      (fun p => decide (p.location = loc0 ∧ p.original = t))).map
        (fun p => p.original)), x = t := by
    intro x hx
    rw [List.mem_map] at hx
    obtain ⟨p, hp, rfl⟩ := hx
    have := (List.mem_filter.mp hp).2
    simp only [decide_eq_true_eq] at this
    exact this.2
  have := length_le_one_of_nodup_all_eq t hnd hall
  simpa using this

/-- C6, confirmed.  For every distinct tag drawn from a file's frontmatter
tags or body tags, a rename proposal is generated if and only if
`best_match` yields a candidate, the candidate differs from the original
tag text, and its score is at or above the threshold (first two
conjuncts, for the frontmatter and body locations).  In particular a tag
whose best match is itself yields no proposal (the `c ≠ t` condition of
the characterization), and each distinct tag value contributes at most one
proposal per location even if repeated (third conjunct). -/
theorem proposal_generation_characterized
    (scorer : Scorer) (path : Str)
    (frontmatterTags bodyTags vocab : List Str) (threshold : Int) :
    (∀ (t c : Str) (s : Rat),
      ((⟨path, locFrontmatter, t, c, s⟩ : Proposal)
          ∈ (build_proposals scorer path frontmatterTags bodyTags vocab
            threshold).1)
        ↔ t ∈ frontmatterTags ∧ best_match scorer t vocab = some (c, s)
            ∧ c ≠ t ∧ (threshold : Rat) ≤ s)
    ∧ (∀ (t c : Str) (s : Rat),
      ((⟨path, locBody, t, c, s⟩ : Proposal)
          ∈ (build_proposals scorer path frontmatterTags bodyTags vocab
            threshold).1)
        ↔ t ∈ bodyTags ∧ best_match scorer t vocab = some (c, s)
            ∧ c ≠ t ∧ (threshold : Rat) ≤ s)
    ∧ ∀ (loc t : Str),
      ((build_proposals scorer path frontmatterTags bodyTags vocab
          threshold).1.countP
        (fun p => decide (p.location = loc ∧ p.original = t))) ≤ 1 := by
  have hbp : (build_proposals scorer path frontmatterTags bodyTags vocab
      threshold).1
      = (buildLoc scorer path locFrontmatter vocab threshold
          frontmatterTags []).1
        ++ (buildLoc scorer path locBody vocab threshold bodyTags []).1 := rfl
  refine ⟨?_, ?_, ?_⟩
  · intro t c s
    rw [hbp, List.mem_append]
    constructor
    · rintro (h | h)
      · obtain ⟨h1, -, h3, h4, h5⟩ :=
          (buildLoc_mem_iff scorer path locFrontmatter vocab threshold
            frontmatterTags [] t c s).mp h
        exact ⟨h1, h3, h4, h5⟩
      · have h0 : locFrontmatter = locBody :=
          (buildLoc_mem_shape scorer path locBody vocab threshold
            bodyTags [] _ h).2.1
        exact absurd h0 (by decide)
    · rintro ⟨h1, h3, h4, h5⟩
      exact Or.inl ((buildLoc_mem_iff scorer path locFrontmatter vocab
        threshold frontmatterTags [] t c s).mpr
        ⟨h1, List.not_mem_nil t, h3, h4, h5⟩)
  · intro t c s
    rw [hbp, List.mem_append]
    constructor
    · rintro (h | h)
      · have h0 : locBody = locFrontmatter :=
          (buildLoc_mem_shape scorer path locFrontmatter vocab
            threshold frontmatterTags [] _ h).2.1
        exact absurd h0 (by decide)
      · obtain ⟨h1, -, h3, h4, h5⟩ :=
          (buildLoc_mem_iff scorer path locBody vocab threshold
            bodyTags [] t c s).mp h
        exact ⟨h1, h3, h4, h5⟩
    · rintro ⟨h1, h3, h4, h5⟩
      exact Or.inr ((buildLoc_mem_iff scorer path locBody vocab
        threshold bodyTags [] t c s).mpr
        ⟨h1, List.not_mem_nil t, h3, h4, h5⟩)
  · intro loc t
    rw [hbp, List.countP_append]
    by_cases h1 : ((buildLoc scorer path locFrontmatter vocab threshold
        frontmatterTags []).1.countP
          (fun p => decide (p.location = loc ∧ p.original = t))) = 0
    · rw [h1]
      simpa using buildLoc_countP_le_one scorer path locBody vocab threshold
        bodyTags [] loc t
    · by_cases h2 : ((buildLoc scorer path locBody vocab threshold
          bodyTags []).1.countP
            (fun p => decide (p.location = loc ∧ p.original = t))) = 0
      · rw [h2]
        simpa using buildLoc_countP_le_one scorer path locFrontmatter vocab
          threshold frontmatterTags [] loc t
      · obtain ⟨p, hp, hpred⟩ :=
          List.countP_pos_iff.mp (Nat.pos_of_ne_zero h1)
        obtain ⟨q, hq, hqred⟩ :=
          List.countP_pos_iff.mp (Nat.pos_of_ne_zero h2)
        simp only [decide_eq_true_eq] at hpred hqred
        have hploc := (buildLoc_mem_shape scorer path locFrontmatter vocab
          threshold frontmatterTags [] p hp).2.1
        have hqloc := (buildLoc_mem_shape scorer path locBody vocab
          threshold bodyTags [] q hq).2.1
        rw [hpred.1] at hploc
        rw [hqred.1] at hqloc
        rw [hploc] at hqloc
        exact absurd hqloc (by decide)

/-- Witness for C6's characterization, applying it with an exact
vocabulary hit: with a scorer that returns the tag itself at score 100
(`"python"` against a vocabulary containing `"python"`), the
characterization shows no frontmatter proposal is generated for it. -/
theorem proposal_generation_characterized_witness :
    ¬ ((⟨'n' :: [], locFrontmatter, "python".data, "python".data, 100⟩
        : Proposal)
      ∈ (build_proposals
          (fun t _ => some (t, 100)) ('n' :: []) ["python".data]
          [] ["python".data] 80).1) := by
  intro hmem
  have h := ((proposal_generation_characterized
    (fun t _ => some (t, 100)) ('n' :: []) ["python".data] []
    ["python".data] 80).1 "python".data "python".data 100).mp hmem
  exact h.2.2.1 rfl
